import Mathlib

/-!
# Verification of the ai-captain maritime routing core

A shallow embedding of the routing core of the `ai-captain` repository:

* `BathymetryRouter` (backend/routes/bathymetry_router.py): depth lookup,
  land classification, water-grid generation, weighted graph construction
  with a step-function depth penalty, and route optimization via A*.
* the simple route optimizer (backend/routes/route_optimizer.py): weather
  risk, fuel/emission estimates, combined edge weights, A* search.
* `networkx.astar_path`, the external search routine both routers call,
  modelled operationally: a priority queue popped in lexicographic
  (f, counter) order — exactly the order `heapq` yields on the pushed
  tuples, since counters are unique — with the `enqueued` / `explored`
  dictionaries and parent-pointer path reconstruction of the library.

Floating-point numbers are modelled by exact rationals.  Python's
`round(x, 2)` is round-half-to-even at two decimals.  The haversine
great-circle distance of the external `haversine` package is a parameter
(`hav`); theorems assume only the properties the real function enjoys
(nonnegativity, symmetry, the triangle inequality, vanishing on the
diagonal), and concrete instances use rational metrics satisfying them.
-/

namespace AICaptain

/-- A coordinate, `(latitude, longitude)` in degrees. -/
abbrev Coord : Type := ℚ × ℚ

/-- Round half to even (Python `round` to 0 decimals) of a rational. -/
def roundHalfEven (x : ℚ) : ℤ :=
  let n := ⌊x⌋
  let frac := x - n
  if frac < 1/2 then n
  else if 1/2 < frac then n + 1
  else if n % 2 = 0 then n else n + 1

/-- Python `round(x, 2)`. -/
def round2 (x : ℚ) : ℚ := (roundHalfEven (100 * x) : ℚ) / 100

/-- `np.arange a b step` for positive step (exact-arithmetic model). -/
def arangeQ (a b step : ℚ) : List ℚ :=
  (List.range (⌈(b - a) / step⌉).toNat).map fun k => a + k * step

/-- First-match lookup in an association list (a Python dict read). -/
def alookup {α : Type} : List (ℕ × α) → ℕ → Option α
  | [], _ => none
  | (k', v) :: rest, k => if k' = k then some v else alookup rest k

/-- A Python dict write: overwrite in place if the key is present
(keeping its position, as dicts do), else append. -/
def ainsert {α : Type} : List (ℕ × α) → ℕ → α → List (ℕ × α)
  | [], k, v => [(k, v)]
  | (k', v') :: rest, k, v =>
    if k' = k then (k, v) :: rest else (k', v') :: ainsert rest k v

/-- The consecutive pairs of a list (the edges of a node path). -/
def pairsOf {α : Type} : List α → List (α × α)
  | a :: b :: rest => (a, b) :: pairsOf (b :: rest)
  | _ => []

/-- Decidable equality of `Except` results (used to evaluate concrete
runs of the routers). -/
instance {ε α : Type} [DecidableEq ε] [DecidableEq α] : DecidableEq (Except ε α) :=
  fun x y =>
    match x, y with
    | .ok a, .ok b =>
      if h : a = b then .isTrue (congrArg Except.ok h)
      else .isFalse fun hc => h (Except.ok.inj hc)
    | .error a, .error b =>
      if h : a = b then .isTrue (congrArg Except.error h)
      else .isFalse fun hc => h (Except.error.inj hc)
    | .ok _, .error _ => .isFalse fun hc => Except.noConfusion hc
    | .error _, .ok _ => .isFalse fun hc => Except.noConfusion hc

/-! ## The `networkx.astar_path` model -/

namespace NX

/-- A heap entry: the tuple `(f, counter, node, dist, parent)` pushed by
`networkx.astar_path`. -/
structure Entry where
  f : ℚ
  cnt : ℕ
  node : ℕ
  dist : ℚ
  parent : Option ℕ
deriving DecidableEq

/-- Lexicographic order on `(f, cnt)`: the order in which `heapq` yields
the pushed tuples (counters are unique, so later tuple components are
never compared). -/
def entryLt (a b : Entry) : Prop := a.f < b.f ∨ (a.f = b.f ∧ a.cnt < b.cnt)

instance : DecidablePred fun p : Entry × Entry => entryLt p.1 p.2 := fun p => by
  unfold entryLt; infer_instance

instance (a b : Entry) : Decidable (entryLt a b) := by
  unfold entryLt; infer_instance

/-- The minimal entry (w.r.t. `entryLt`) of `e :: l`. -/
def findMin (e : Entry) : List Entry → Entry
  | [] => e
  | e' :: rest => findMin (if entryLt e' e then e' else e) rest

/-- Remove the first occurrence of an entry. -/
def eraseFirst : List Entry → Entry → List Entry
  | [], _ => []
  | e' :: rest, e => if e' = e then rest else e' :: eraseFirst rest e

/-- `heappop`: remove and return the minimal entry. -/
def popMin (l : List Entry) : Option (Entry × List Entry) :=
  match l with
  | [] => none
  | e :: rest =>
    let m := findMin e rest
    some (m, eraseFirst (e :: rest) m)

/-- Outcomes of the search.  `noPath` is `NetworkXNoPath`, `nodeNotFound`
is `NodeNotFound` (endpoint absent from the graph; a different exception
class, not caught by `except NetworkXNoPath`).  `outOfFuel` and `broken`
are modelling artifacts: the Python loop has no fuel, and `broken` marks
dictionary reads that would raise `KeyError` (unreachable in practice). -/
inductive Err where
  | noPath
  | nodeNotFound
  | outOfFuel
  | broken
deriving DecidableEq

/-- Search state: the heap, the `enqueued` dict `node ↦ (g, h)` and the
`explored` dict `node ↦ parent`, plus the `itertools.count` counter. -/
structure State where
  queue : List Entry
  enqueued : List (ℕ × ℚ × ℚ)
  explored : List (ℕ × Option ℕ)
  counter : ℕ

/-- Walk the `explored` parent pointers: `path = [curnode]`, then append
parents until `None`, then reverse.  Fuel bounds the walk (Python would
loop forever on a cycle; the invariants show cycles never occur). -/
def reconGo (explored : List (ℕ × Option ℕ)) : ℕ → Option ℕ → List ℕ → Option (List ℕ)
  | _, none, acc => some acc
  | 0, some _, _ => none
  | fuel + 1, some p, acc =>
    match alookup explored p with
    | none => none
    | some pp => reconGo explored fuel pp (p :: acc)

def reconstruct (explored : List (ℕ × Option ℕ)) (cur : ℕ) (parent : Option ℕ) :
    Option (List ℕ) :=
  reconGo explored (explored.length + 1) parent [cur]

/-- The relaxation loop over `G[curnode].items()`:
for each `(neighbor, w)`, `ncost = dist + w`; skip if already enqueued at
least as cheaply, else record `enqueued[neighbor] = (ncost, h)` (reusing
the stored h, or calling the heuristic on first contact) and push
`(ncost + h, counter, neighbor, ncost, curnode)`. -/
def relax (heur : ℕ → ℚ) (dist : ℚ) (cur : ℕ) :
    List (ℕ × ℚ) → State → State
  | [], st => st
  | (nb, w) :: rest, st =>
    let ncost := dist + w
    let hval : Option ℚ :=
      match alookup st.enqueued nb with
      | some (qcost, hh) => if qcost ≤ ncost then none else some hh
      | none => some (heur nb)
    match hval with
    | none => relax heur dist cur rest st
    | some hv =>
      relax heur dist cur rest
        { st with
          enqueued := ainsert st.enqueued nb (ncost, hv)
          queue := st.queue ++ [⟨ncost + hv, st.counter, nb, ncost, cur⟩]
          counter := st.counter + 1 }

/-- The main loop of `networkx.astar_path`.  Pop the minimal entry; if it
is the target, reconstruct; if its node was explored, skip stale entries
(source entries via the `None`-parent check, others via
`qcost < dist`); otherwise record `explored[curnode] = parent` and relax
the neighbors. -/
def loop (adj : ℕ → List (ℕ × ℚ)) (t : ℕ) (heur : ℕ → ℚ) :
    ℕ → State → Except Err (List ℕ)
  | 0, _ => .error .outOfFuel
  | fuel + 1, st =>
    match popMin st.queue with
    | none => .error .noPath
    | some (e, rest) =>
      if e.node = t then
        match reconstruct st.explored e.node e.parent with
        | some p => .ok p
        | none => .error .broken
      else
        match alookup st.explored e.node with
        | some po =>
          if po = none then loop adj t heur fuel { st with queue := rest }
          else
            match alookup st.enqueued e.node with
            | none => .error .broken
            | some (qcost, _) =>
              if qcost < e.dist then loop adj t heur fuel { st with queue := rest }
              else
                loop adj t heur fuel
                  (relax heur e.dist e.node (adj e.node)
                    { st with queue := rest
                              explored := ainsert st.explored e.node e.parent })
        | none =>
          loop adj t heur fuel
            (relax heur e.dist e.node (adj e.node)
              { st with queue := rest
                        explored := ainsert st.explored e.node e.parent })

/-- `networkx.astar_path G s t heuristic`: reject endpoints not in the
graph (`NodeNotFound`), then run the loop from the initial heap
`[(0, 0, source, 0, None)]`. -/
def astar_path (adj : ℕ → List (ℕ × ℚ)) (gnodes : List ℕ) (s t : ℕ)
    (heur : ℕ → ℚ) (fuel : ℕ) : Except Err (List ℕ) :=
  if s ∈ gnodes ∧ t ∈ gnodes then
    loop adj t heur fuel ⟨[⟨0, 0, s, 0, none⟩], [], [], 1⟩
  else .error .nodeNotFound

end NX

/-! ## Paths in an adjacency view -/

/-- `v` is a neighbor of `u`. -/
def Adj (adj : ℕ → List (ℕ × ℚ)) (u v : ℕ) : Prop := v ∈ (adj u).map Prod.fst

instance (adj : ℕ → List (ℕ × ℚ)) (u v : ℕ) : Decidable (Adj adj u v) :=
  inferInstanceAs (Decidable (v ∈ (adj u).map Prod.fst))

/-- `p` is a path from `s` to `t`: nonempty, starts at `s`, ends at `t`,
consecutive nodes adjacent. -/
def IsPath (adj : ℕ → List (ℕ × ℚ)) (s t : ℕ) (p : List ℕ) : Prop :=
  p ≠ [] ∧ p.head? = some s ∧ p.getLast? = some t ∧ List.Chain' (Adj adj) p

instance (adj : ℕ → List (ℕ × ℚ)) (s t : ℕ) (p : List ℕ) :
    Decidable (IsPath adj s t p) :=
  inferInstanceAs (Decidable (p ≠ [] ∧ p.head? = some s ∧
    p.getLast? = some t ∧ List.Chain' (Adj adj) p))

/-- Total cost of a node path under an edge-cost function. -/
def pathCost (w : ℕ → ℕ → ℚ) : List ℕ → ℚ
  | a :: b :: rest => w a b + pathCost w (b :: rest)
  | _ => 0

/-! ## Graph helpers shared by both routers (networkx `Graph` views) -/

/-- Neighbor list of `u` with edge weights, in insertion order: `add_edge
i j` appends `j` to `G[i]` and `i` to `G[j]`. -/
def adjOf {ε : Type} (wf : ε → ℚ) (edges : List (ℕ × ℕ × ε)) (u : ℕ) :
    List (ℕ × ℚ) :=
  edges.filterMap fun e =>
    if e.1 = u then some (e.2.1, wf e.2.2)
    else if e.2.1 = u then some (e.1, wf e.2.2)
    else none

/-- The nodes of the graph (only `add_edge` adds nodes). -/
def gNodes {ε : Type} (edges : List (ℕ × ℕ × ε)) : List ℕ :=
  edges.flatMap fun e => [e.1, e.2.1]

/-- `G[u][v]`: the attribute record of the edge between `u` and `v`. -/
def edge_data {ε : Type} (edges : List (ℕ × ℕ × ε)) (u v : ℕ) : Option ε :=
  (edges.find? fun e =>
    if (e.1 = u ∧ e.2.1 = v) ∨ (e.1 = v ∧ e.2.1 = u) then true else false).map
    fun e => e.2.2

/-! ## BathymetryRouter (backend/routes/bathymetry_router.py) -/

/-- Router state after `__init__`.  `bathymetry` is the opened raster
(`none` when no path was given or opening failed); a loaded raster is
a sampling function, returning `none` where indexing/reading raises.
`land_polygons` is the land dataset (`none` when loading failed); each
polygon is a containment test, returning `none` where shapely raises. -/
structure BathymetryRouter where
  bathymetry : Option (ℚ → ℚ → Option ℚ)
  land_polygons : Option (List (ℚ → ℚ → Option Bool))
  resolution : ℚ

namespace BathymetryRouter

/-- Reading the raster: the sampled value, or `-1000` where
indexing/reading raises. -/
def depth_read (sample : ℚ → ℚ → Option ℚ) (lon lat : ℚ) : ℚ :=
  match sample lon lat with
  | some depth => depth
  | none => -1000

/-- `get_depth(lon, lat)`: sampled depth, `-1000` (deep water) when no
dataset is loaded or sampling raises. -/
def get_depth (r : BathymetryRouter) (lon lat : ℚ) : ℚ :=
  match r.bathymetry with
  | none => -1000
  | some sample => depth_read sample lon lat

/-- `is_on_land(lon, lat)`: `False` when the dataset is missing or empty;
otherwise `contains(point).any()`, with any raised exception swallowed
to `False`. -/
def is_on_land (r : BathymetryRouter) (lon lat : ℚ) : Bool :=
  match r.land_polygons with
  | none => false
  | some polys =>
    if polys.isEmpty then false
    else
      let results := polys.map fun p => p lon lat
      if results.any fun res => res.isNone then false
      else results.any fun res => res.getD false

/-- `generate_water_grid(start, end)`: bounding box padded by 5°, lattice
at `resolution` via `np.arange`, keep the non-land points as
`(lat, lon)` pairs (longitude outer loop, latitude inner loop). -/
def generate_water_grid (r : BathymetryRouter) (start stop : Coord) : List Coord :=
  let min_lon := min start.2 stop.2 - 5
  let max_lon := max start.2 stop.2 + 5
  let min_lat := min start.1 stop.1 - 5
  let max_lat := max start.1 stop.1 + 5
  let lons := arangeQ min_lon (max_lon + r.resolution) r.resolution
  let lats := arangeQ min_lat (max_lat + r.resolution) r.resolution
  lons.flatMap fun lon =>
    lats.filterMap fun lat =>
      if is_on_land r lon lat then none else some (lat, lon)

/-- `compute_edge_weight(a, b, use_bathymetry)`: haversine base distance,
multiplied (when enabled and a raster is loaded) by the step penalty on
the average of the endpoint depths. -/
def compute_edge_weight (hav : Coord → Coord → ℚ) (r : BathymetryRouter)
    (node_a node_b : Coord) (use_bathymetry : Bool) : ℚ :=
  let base_dist := hav node_a node_b
  if !use_bathymetry || r.bathymetry.isNone then base_dist
  else
    let depth_a := get_depth r node_a.2 node_a.1
    let depth_b := get_depth r node_b.2 node_b.1
    let avg_depth := (depth_a + depth_b) / 2
    let penalty : ℚ :=
      if avg_depth > -50 then 10
      else if avg_depth > -100 then 5
      else if avg_depth > -200 then 2
      else 1
    base_dist * penalty

/-- Edge attributes stored by `build_graph`. -/
structure EdgeData where
  weight : ℚ
  distance : ℚ
  depth_penalty : ℚ
deriving DecidableEq

/-- `np.hypot(Δlat, Δlon) ≤ 4.0`, stated on squares (equivalent, and
rational-exact). -/
def connect_ok (a b : Coord) : Bool :=
  if (b.1 - a.1) * (b.1 - a.1) + (b.2 - a.2) * (b.2 - a.2) ≤ (16 : ℚ) then true
  else false

/-- `build_graph(nodes, use_bathymetry)`: an edge for every pair `i < j`
within the 4° connection distance, with attributes `weight`,
`distance` (haversine nmi) and `depth_penalty = weight / distance`
(1.0 when the distance is 0). -/
def build_graph (hav : Coord → Coord → ℚ) (r : BathymetryRouter)
    (nodes : List Coord) (use_bathymetry : Bool) : List (ℕ × ℕ × EdgeData) :=
  (List.range nodes.length).flatMap fun i =>
    (List.range nodes.length).filterMap fun j =>
      if i < j then
        let a := nodes.getD i (0, 0)
        let b := nodes.getD j (0, 0)
        if connect_ok a b then
          let w := compute_edge_weight hav r a b use_bathymetry
          let d := hav a b
          some (i, j, ⟨w, d, if 0 < d then w / d else 1⟩)
        else none
      else none

/-- `find_nearest_node`: `np.argmin` of the haversine distances (first
index attaining the minimum). -/
def argmin_go : List ℚ → ℕ → ℕ → ℚ → ℕ
  | [], _, best, _ => best
  | x :: rest, i, best, bv =>
    if x < bv then argmin_go rest (i + 1) i x else argmin_go rest (i + 1) best bv

def find_nearest_node (hav : Coord → Coord → ℚ) (coord : Coord)
    (nodes : List Coord) : ℕ :=
  match nodes.map fun n => hav coord n with
  | [] => 0
  | d :: rest => argmin_go rest 1 0 d

/-- The result dictionary of `optimize_route`.  `warning` is `none` when
the key is absent. -/
structure RouteResult where
  route : List Coord
  total_distance_nm : ℚ
  waypoint_count : ℕ
  avg_depth_penalty : ℚ
  bathymetry_enabled : Bool
  warning : Option String
deriving DecidableEq

/-- The direct-route fallback dictionary. -/
def direct_fallback (hav : Coord → Coord → ℚ) (s e : Coord) (msg : String) :
    RouteResult :=
  ⟨[s, e], round2 (hav s e), 2, 1, false, some msg⟩

/-- The heuristic lambda passed to `nx.astar_path`:
`haversine(nodes[n1], nodes[n2])` with `n2` the target index. -/
def bathy_heur (hav : Coord → Coord → ℚ) (nodes : List Coord) (t : ℕ) :
    ℕ → ℚ :=
  fun n => hav (nodes.getD n (0, 0)) (nodes.getD t (0, 0))

/-- The `nx.astar_path` call made by `optimize_route` (named so theorems
can condition on its outcome). -/
def bathy_astar (hav : Coord → Coord → ℚ) (r : BathymetryRouter)
    (start_coords end_coords : Coord) (use_bathymetry : Bool) (fuel : ℕ) :
    Except NX.Err (List ℕ) :=
  let nodes := generate_water_grid r start_coords end_coords
  let G := build_graph hav r nodes use_bathymetry
  NX.astar_path (adjOf EdgeData.weight G) (gNodes G)
    (find_nearest_node hav start_coords nodes)
    (find_nearest_node hav end_coords nodes)
    (bathy_heur hav nodes (find_nearest_node hav end_coords nodes)) fuel

/-- The metrics block of `optimize_route`'s success branch: coordinates,
summed edge distances (rounded), waypoint count, `np.mean` of the edge
depth penalties (1.0 for single-node paths, rounded), and the request's
`use_bathymetry` flag. -/
def bathy_summary (G : List (ℕ × ℕ × EdgeData))
    (nodes : List Coord) (use_bathymetry : Bool) (path_indices : List ℕ) :
    RouteResult :=
  let route_coords := path_indices.map fun i => nodes.getD i (0, 0)
  let segs := pairsOf path_indices
  let total_distance :=
    (segs.map fun p => ((edge_data G p.1 p.2).getD ⟨0, 0, 1⟩).distance).sum
  let avg_penalty : ℚ :=
    if 1 < path_indices.length then
      (segs.map fun p =>
        ((edge_data G p.1 p.2).getD ⟨0, 0, 1⟩).depth_penalty).sum /
        (segs.length : ℚ)
    else 1
  ⟨route_coords, round2 total_distance, route_coords.length,
    round2 avg_penalty, use_bathymetry, none⟩

/-- `optimize_route(start, end, use_bathymetry)`.  `fuel` bounds the
search loop (modelling artifact).  `Except.error` marks exceptions that
escape to the caller: `NodeNotFound` is not caught by
`except nx.NetworkXNoPath`. -/
def optimize_route (hav : Coord → Coord → ℚ) (r : BathymetryRouter)
    (start_coords end_coords : Coord) (use_bathymetry : Bool) (fuel : ℕ) :
    Except String RouteResult :=
  if (generate_water_grid r start_coords end_coords).length < 2 then
    .ok (direct_fallback hav start_coords end_coords
      "Insufficient water nodes, using direct route")
  else
    if (build_graph hav r (generate_water_grid r start_coords end_coords)
        use_bathymetry).length = 0 then
      .ok (direct_fallback hav start_coords end_coords
        "No navigable path found, using direct route")
    else
      match bathy_astar hav r start_coords end_coords use_bathymetry fuel with
      | .ok path_indices =>
        .ok (bathy_summary
          (build_graph hav r (generate_water_grid r start_coords end_coords)
            use_bathymetry)
          (generate_water_grid r start_coords end_coords) use_bathymetry
          path_indices)
      | .error .noPath =>
        .ok (direct_fallback hav start_coords end_coords
          "No path found, using direct route")
      | .error .nodeNotFound => .error "NodeNotFound"
      | .error _ => .error "model ran out of fuel"

end BathymetryRouter

/-! ## The simple optimizer (backend/routes/route_optimizer.py) -/

namespace RouteOpt

/-- A hazard dictionary: a center and an optional radius
(`hazard.get("radius", 5)`). -/
structure Hazard where
  center : Coord
  radius : Option ℚ

/-- `calculate_weather_risk(p1, p2, weather_data)`: 0.8 for the first
hazard whose center is within `radius * 111` km of the midpoint, else 0.
`havKm` is `haversine` in its default kilometre unit. -/
def calculate_weather_risk (havKm : Coord → Coord → ℚ) (p1 p2 : Coord)
    (weather : List Hazard) : ℚ :=
  match weather.find? (fun hz =>
    let mid : Coord := ((p1.1 + p2.1) / 2, (p1.2 + p2.2) / 2)
    if havKm mid hz.center < hz.radius.getD 5 * 111 then true else false) with
  | some _ => 0.8
  | none => 0

/-- `estimate_fuel_cost(distance_nm, weather_penalty)`. -/
def estimate_fuel_cost (distance_nm weather_penalty : ℚ) : ℚ :=
  distance_nm * 0.3 * 600 * (1 + weather_penalty * 0.5)

/-- `calculate_emissions(distance_nm, weather_penalty)`. -/
def calculate_emissions (distance_nm weather_penalty : ℚ) : ℚ :=
  distance_nm * 0.3 * (1 + weather_penalty * 0.5) * 3.1

/-- Edge attributes stored by `create_route_graph`. -/
structure SEdge where
  weight : ℚ
  distance : ℚ
  fuel_cost : ℚ
  emissions : ℚ
  weather_risk : ℚ
deriving DecidableEq

/-- `create_route_graph(waypoints, weather_data)`: an edge for each pair
`i < j` at haversine distance ≤ 500 nmi, with the combined weight
`0.4·d + 0.3·(fuel/1000) + 0.2·risk·1000 + 0.1·(emissions/10)`. -/
def create_route_graph (havNmi havKm : Coord → Coord → ℚ)
    (waypoints : List Coord) (weather : List Hazard) : List (ℕ × ℕ × SEdge) :=
  (List.range waypoints.length).flatMap fun i =>
    (List.range waypoints.length).filterMap fun j =>
      if j ≤ i then none
      else
        let p1 := waypoints.getD i (0, 0)
        let p2 := waypoints.getD j (0, 0)
        let d := havNmi p1 p2
        if 500 < d then none
        else
          let wp := calculate_weather_risk havKm p1 p2 weather
          let fc := estimate_fuel_cost d wp
          let em := calculate_emissions d wp
          let wt := 0.4 * d + 0.3 * (fc / 1000) + 0.2 * wp * 1000 + 0.1 * (em / 10)
          some (i, j, ⟨wt, d, fc, em, wp⟩)

/-- The result dictionary of the simple `optimize_route`. -/
structure SResult where
  route : List Coord
  total_distance_nm : ℚ
  total_fuel_cost_usd : ℚ
  total_emissions_tons : ℚ
  waypoint_count : ℕ
  warning : Option String
deriving DecidableEq

/-- `all_waypoints = [start_coords] + waypoints + [end_coords]`. -/
def all_wps (start_coords end_coords : Coord) (waypoints : List Coord) :
    List Coord :=
  start_coords :: (waypoints ++ [end_coords])

/-- The heuristic lambda of the simple optimizer. -/
def simple_heur (havNmi : Coord → Coord → ℚ) (aw : List Coord) (t : ℕ) :
    ℕ → ℚ :=
  fun n => havNmi (aw.getD n (0, 0)) (aw.getD t (0, 0))

/-- The `nx.astar_path` call made by the simple `optimize_route`. -/
def simple_astar (havNmi havKm : Coord → Coord → ℚ)
    (start_coords end_coords : Coord) (waypoints : List Coord)
    (weather : List Hazard) (fuel : ℕ) : Except NX.Err (List ℕ) :=
  let aw := all_wps start_coords end_coords waypoints
  let G := create_route_graph havNmi havKm aw weather
  NX.astar_path (adjOf SEdge.weight G) (gNodes G) 0 (aw.length - 1)
    (simple_heur havNmi aw (aw.length - 1)) fuel

/-- The success-branch metrics of the simple `optimize_route`. -/
def simple_summary (G : List (ℕ × ℕ × SEdge)) (aw : List Coord)
    (route_indices : List ℕ) : SResult :=
  let route_coords := route_indices.map fun i => aw.getD i (0, 0)
  let segs := pairsOf route_indices
  let dflt : SEdge := ⟨0, 0, 0, 0, 0⟩
  let total_distance := (segs.map fun p => ((edge_data G p.1 p.2).getD dflt).distance).sum
  let total_fuel := (segs.map fun p => ((edge_data G p.1 p.2).getD dflt).fuel_cost).sum
  let total_emissions := (segs.map fun p => ((edge_data G p.1 p.2).getD dflt).emissions).sum
  ⟨route_coords, round2 total_distance, round2 total_fuel,
    round2 total_emissions, route_coords.length, none⟩

/-- `optimize_route(start, end, waypoints, weather_data)`: A* from index 0
to the last index over `[start] + waypoints + [end]`; on
`NetworkXNoPath`, the direct route with zero fuel cost and emissions. -/
def optimize_route (havNmi havKm : Coord → Coord → ℚ)
    (start_coords end_coords : Coord) (waypoints : List Coord)
    (weather : List Hazard) (fuel : ℕ) : Except String SResult :=
  match simple_astar havNmi havKm start_coords end_coords waypoints weather fuel with
  | .ok route_indices =>
    .ok (simple_summary
      (create_route_graph havNmi havKm (all_wps start_coords end_coords waypoints)
        weather)
      (all_wps start_coords end_coords waypoints) route_indices)
  | .error .noPath =>
    .ok ⟨[start_coords, end_coords], havNmi start_coords end_coords, 0, 0, 2,
      some "No optimal path found, returning direct route"⟩
  | .error .nodeNotFound => .error "NodeNotFound"
  | .error _ => .error "model ran out of fuel"

end RouteOpt

/-! ## Spec-side definitions (for refinement statements) -/

/-- The depth-penalty policy as the spec words it: "depth shallower than
50m → ×10; shallower than 100m → ×5; shallower than 200m → ×2; else ×1"
(depths are negative, shallower-than-Xm means magnitude below X). -/
def spec_penalty (depth : ℚ) : ℚ :=
  if -depth < 50 then 10
  else if -depth < 100 then 5
  else if -depth < 200 then 2
  else 1

/-! ## Invariants for the A* correctness proof -/

namespace NX

/-- The initial heap entry `(0, 0, source, 0, None)`. -/
def initEntry (s : ℕ) : Entry := ⟨0, 0, s, 0, none⟩

/-- The ancestor chain encoded by the `explored` parent map: `Anc E po l`
says that following parent pointers from `po` down to the root yields
the node list `l` (root first). -/
inductive Anc (E : List (ℕ × Option ℕ)) : Option ℕ → List ℕ → Prop
  | nil : Anc E none []
  | cons (u : ℕ) (pu : Option ℕ) (l : List ℕ) :
      alookup E u = some pu → Anc E pu l → Anc E (some u) (l ++ [u])

/-- The bookkeeping part of the loop invariant of `astar_path` run from
source `s` to target `t` over adjacency `adj` whose stored edge costs
are `w`: everything except the edge-coverage relation, which is restored
separately after each relaxation sweep.  `L` is the heap, `Q` the
`enqueued` map, `E` the `explored` map, `c` the push counter. -/
structure InvB (adj : ℕ → List (ℕ × ℚ)) (w : ℕ → ℕ → ℚ) (heur : ℕ → ℚ)
    (s t : ℕ) (L : List Entry) (Q : List (ℕ × ℚ × ℚ))
    (E : List (ℕ × Option ℕ)) (c : ℕ) : Prop where
  tgt : alookup E t = none
  sBind : ∀ po, alookup E s = some po → po = none
  expPath : ∀ v po, alookup E v = some po →
    ∃ l, Anc E po l ∧ IsPath adj s v (l ++ [v]) ∧ (l ++ [v]).Nodup ∧
      (∀ x ∈ l, ∃ po', alookup E x = some po') ∧
      (∀ q, IsPath adj s v q → pathCost w (l ++ [v]) ≤ pathCost w q)
  entries : ∀ e ∈ L,
    (e.f = e.dist + heur e.node ∨ e = initEntry s) ∧
    (e.cnt = 0 → e = initEntry s) ∧
    (e.parent = none → e = initEntry s) ∧
    ∃ l, Anc E e.parent l ∧ IsPath adj s e.node (l ++ [e.node]) ∧
      pathCost w (l ++ [e.node]) = e.dist ∧
      (∀ x ∈ l, ∃ po', alookup E x = some po') ∧
      (alookup E e.node = none → (l ++ [e.node]).Nodup)
  qh : ∀ v g hh, alookup Q v = some (g, hh) → hh = heur v
  qlb : ∀ e ∈ L, e.node ≠ s →
    ∃ g hh, alookup Q e.node = some (g, hh) ∧ g ≤ e.dist ∧
      ((∃ po, alookup E e.node = some po) → g < e.dist)
  qsync : ∀ v g hh, alookup Q v = some (g, hh) → alookup E v = none →
    ∃ e ∈ L, e.node = v ∧ e.dist = g
  qexp : ∀ v po, alookup E v = some po → v ≠ s →
    ∃ g hh, alookup Q v = some (g, hh) ∧
      ∀ q, IsPath adj s v q → g ≤ pathCost w q
  sent : alookup E s = none → initEntry s ∈ L
  hcnt : 1 ≤ c ∧ ∀ e ∈ L, e.cnt < c
  hnodup : L.Nodup
  ndist : ∀ e ∈ L, ∀ e' ∈ L, e.node = e'.node → e.node ≠ s →
    e.dist = e'.dist → e = e'

/-- The full loop invariant: the bookkeeping plus the edge-coverage
relation (every edge out of an explored node leads to an explored or
enqueued-with-a-cost-bound neighbor). -/
structure Inv (adj : ℕ → List (ℕ × ℚ)) (w : ℕ → ℕ → ℚ) (heur : ℕ → ℚ)
    (s t : ℕ) (L : List Entry) (Q : List (ℕ × ℚ × ℚ))
    (E : List (ℕ × Option ℕ)) (c : ℕ)
    extends InvB adj w heur s t L Q E c : Prop where
  edgeRel : ∀ v po, alookup E v = some po → ∀ nb cw, (nb, cw) ∈ adj v →
    (∃ po', alookup E nb = some po') ∨
    ∃ g hh, alookup Q nb = some (g, hh) ∧
      ∀ l, Anc E po l → g ≤ pathCost w (l ++ [v]) + cw

/-- Partial edge coverage during a relaxation sweep from `cur`: every
edge out of an explored node is covered, except possibly the edges of
`cur` still in the `todo` list. -/
def EdgeCov (adj : ℕ → List (ℕ × ℚ)) (w : ℕ → ℕ → ℚ) (cur : ℕ)
    (todo : List (ℕ × ℚ)) (Q : List (ℕ × ℚ × ℚ))
    (E : List (ℕ × Option ℕ)) : Prop :=
  ∀ v po, alookup E v = some po → ∀ nb cw, (nb, cw) ∈ adj v →
    (v = cur ∧ (nb, cw) ∈ todo) ∨
    (∃ po', alookup E nb = some po') ∨
    ∃ g hh, alookup Q nb = some (g, hh) ∧
      ∀ l, Anc E po l → g ≤ pathCost w (l ++ [v]) + cw

end NX

/-! ## Concrete instances for witnesses and counterexamples -/

namespace Ex

/-- Kernel-reducible absolute value on the rationals. -/
def qabs (x : ℚ) : ℚ := if x < 0 then -x else x

/-- A taxicab metric on coordinates: a computable stand-in for a
haversine-like distance satisfying every property the theorems assume of
`hav` (nonnegativity, symmetry, triangle inequality, zero diagonal). -/
def l1dist (a b : Coord) : ℚ := qabs (a.1 - b.1) + qabs (a.2 - b.2)

/-- The taxicab metric scaled by `50.059` (so adjacent grid nodes two
degrees apart are `100.118` apart, a distance that needs rounding). -/
def hav8 (a b : Coord) : ℚ := 50059 / 1000 * l1dist a b

/-- Land everywhere except three isolated water cells on the `lon = 0`
meridian, the northern one more than 4° from the other two. -/
def c3land : Option (List (ℚ → ℚ → Option Bool)) :=
  some [fun lon lat =>
    some (if lon = 0 ∧ (lat = 0 ∨ lat = 2 ∨ lat = 10) then false else true)]

def c3r : BathymetryRouter := ⟨none, c3land, 2⟩

/-- Land everywhere except two adjacent water cells at `lon = -5`. -/
def c8land : Option (List (ℚ → ℚ → Option Bool)) :=
  some [fun lon lat =>
    some (if lon = -5 ∧ (lat = 0 ∨ lat = 2) then false else true)]

/-- Two-water-node router with a uniformly shallow (10m) depth raster. -/
def c8r : BathymetryRouter := ⟨some fun _ _ => some (-10), c8land, 2⟩

/-- Two-water-node router with no depth raster loaded. -/
def c6r : BathymetryRouter := ⟨none, c8land, 2⟩

/-- A router whose land dataset covers the whole plane. -/
def rAllLand : BathymetryRouter := ⟨none, some [fun _ _ => some true], 2⟩

/-- Intermediate waypoints of the simple-optimizer counterexample. -/
def c2way : List Coord := [(350, 50), (275, 25)]

def c2all : List Coord := RouteOpt.all_wps (0, 0) (700, 0) c2way

def c2G : List (ℕ × ℕ × RouteOpt.SEdge) :=
  RouteOpt.create_route_graph l1dist l1dist c2all []

/-- Edge-weight function of the counterexample graph. -/
def c2w (u v : ℕ) : ℚ := ((edge_data c2G u v).map RouteOpt.SEdge.weight).getD 0

end Ex

/-! ## Theorems -/

theorem qabs_eq_abs (x : ℚ) : Ex.qabs x = |x| := by
  unfold Ex.qabs
  split_ifs with h
  · rw [abs_of_neg h]
  · rw [abs_of_nonneg (le_of_not_lt h)]

theorem l1dist_eq (a b : Coord) : Ex.l1dist a b = |a.1 - b.1| + |a.2 - b.2| := by
  unfold Ex.l1dist; rw [qabs_eq_abs, qabs_eq_abs]

theorem l1dist_nonneg : ∀ a b : Coord, 0 ≤ Ex.l1dist a b := by
  intro a b; rw [l1dist_eq]; positivity

theorem l1dist_symm : ∀ a b : Coord, Ex.l1dist a b = Ex.l1dist b a := by
  intro a b; rw [l1dist_eq, l1dist_eq, abs_sub_comm, abs_sub_comm a.2]

theorem l1dist_triangle :
    ∀ a b c : Coord, Ex.l1dist a c ≤ Ex.l1dist a b + Ex.l1dist b c := by
  intro a b c; rw [l1dist_eq, l1dist_eq, l1dist_eq]
  have h1 := abs_sub_le a.1 b.1 c.1
  have h2 := abs_sub_le a.2 b.2 c.2
  linarith

theorem l1dist_refl : ∀ a : Coord, Ex.l1dist a a = 0 := by
  intro a; rw [l1dist_eq]; simp

theorem hav8_nonneg : ∀ a b : Coord, 0 ≤ Ex.hav8 a b := by
  intro a b
  have := l1dist_nonneg a b
  unfold Ex.hav8
  positivity

theorem hav8_symm : ∀ a b : Coord, Ex.hav8 a b = Ex.hav8 b a := by
  intro a b; unfold Ex.hav8; rw [l1dist_symm]

theorem hav8_triangle :
    ∀ a b c : Coord, Ex.hav8 a c ≤ Ex.hav8 a b + Ex.hav8 b c := by
  intro a b c
  have := l1dist_triangle a b c
  unfold Ex.hav8
  nlinarith

theorem hav8_refl : ∀ a : Coord, Ex.hav8 a a = 0 := by
  intro a; unfold Ex.hav8; rw [l1dist_refl]; ring

namespace BathymetryRouter

/-- With the penalty disabled the edge weight is the bare haversine
distance. -/
theorem compute_edge_weight_false (hav : Coord → Coord → ℚ)
    (r : BathymetryRouter) (a b : Coord) :
    compute_edge_weight hav r a b false = hav a b := by
  unfold compute_edge_weight; simp

/-- The edge weight is always the haversine distance times a factor ≥ 1. -/
theorem compute_edge_weight_factor (hav : Coord → Coord → ℚ)
    (r : BathymetryRouter) (a b : Coord) (useB : Bool) :
    ∃ p : ℚ, 1 ≤ p ∧ compute_edge_weight hav r a b useB = hav a b * p := by
  unfold compute_edge_weight
  split_ifs with h
  · exact ⟨1, le_refl 1, (mul_one _).symm⟩
  · refine ⟨_, ?_, rfl⟩
    split_ifs <;> norm_num

theorem compute_edge_weight_ge (hav : Coord → Coord → ℚ)
    (hnn : ∀ a b, 0 ≤ hav a b) (r : BathymetryRouter) (a b : Coord)
    (useB : Bool) : hav a b ≤ compute_edge_weight hav r a b useB := by
  obtain ⟨p, hp, heq⟩ := compute_edge_weight_factor hav r a b useB
  rw [heq]
  exact le_mul_of_one_le_right (hnn a b) hp

/-- Unfolding membership in `build_graph`: an edge `(i, j, d)` has
`i < j`, both in range, endpoints within connect distance, and the
stored attribute record. -/
theorem build_graph_mem {hav : Coord → Coord → ℚ} {r : BathymetryRouter}
    {nodes : List Coord} {useB : Bool} {i j : ℕ} {d : EdgeData}
    (h : (i, j, d) ∈ build_graph hav r nodes useB) :
    i < j ∧ j < nodes.length ∧
      connect_ok (nodes.getD i (0, 0)) (nodes.getD j (0, 0)) = true ∧
      d = ⟨compute_edge_weight hav r (nodes.getD i (0, 0)) (nodes.getD j (0, 0)) useB,
           hav (nodes.getD i (0, 0)) (nodes.getD j (0, 0)),
           if 0 < hav (nodes.getD i (0, 0)) (nodes.getD j (0, 0)) then
             compute_edge_weight hav r (nodes.getD i (0, 0)) (nodes.getD j (0, 0)) useB /
               hav (nodes.getD i (0, 0)) (nodes.getD j (0, 0))
           else 1⟩ := by
  unfold build_graph at h
  simp only [List.mem_flatMap, List.mem_filterMap, List.mem_range] at h
  obtain ⟨i', hi', j', hj', hcond⟩ := h
  split_ifs at hcond with h1 h2 h3
  · simp only [Option.some.injEq, Prod.mk.injEq] at hcond
    obtain ⟨rfl, rfl, rfl⟩ := hcond
    exact ⟨h1, hj', h2, by rw [if_pos h3]⟩
  · simp only [Option.some.injEq, Prod.mk.injEq] at hcond
    obtain ⟨rfl, rfl, rfl⟩ := hcond
    exact ⟨h1, hj', h2, by rw [if_neg h3]⟩

/-- With the penalty enabled and a raster loaded, the edge weight is the
haversine distance times the spec's step penalty of the averaged
endpoint depths (helper shared by several claims). -/
theorem compute_edge_weight_spec (hav : Coord → Coord → ℚ)
    (sample : ℚ → ℚ → Option ℚ) (lp : Option (List (ℚ → ℚ → Option Bool)))
    (res : ℚ) (a b : Coord) :
    compute_edge_weight hav ⟨some sample, lp, res⟩ a b true =
      hav a b * spec_penalty
        ((get_depth ⟨some sample, lp, res⟩ a.2 a.1 +
          get_depth ⟨some sample, lp, res⟩ b.2 b.1) / 2) := by
  unfold compute_edge_weight spec_penalty
  simp only [Bool.not_true, Option.isNone_some, Bool.or_self, Bool.false_eq_true,
    if_false]
  split_ifs <;> first | rfl | linarith

end BathymetryRouter

/-- **C4**: with the depth penalty enabled and a depth dataset loaded,
every edge weight is the great-circle distance times the step-function
penalty (×10 shallower than 50m, ×5 shallower than 100m, ×2 shallower
than 200m, else ×1) of the average of the two endpoint depths. -/
theorem C4_step_penalty_weight (hav : Coord → Coord → ℚ)
    (sample : ℚ → ℚ → Option ℚ) (lp : Option (List (ℚ → ℚ → Option Bool)))
    (res : ℚ) (a b : Coord) :
    BathymetryRouter.compute_edge_weight hav ⟨some sample, lp, res⟩ a b true =
      hav a b * spec_penalty
        ((BathymetryRouter.get_depth ⟨some sample, lp, res⟩ a.2 a.1 +
          BathymetryRouter.get_depth ⟨some sample, lp, res⟩ b.2 b.1) / 2) :=
  BathymetryRouter.compute_edge_weight_spec hav sample lp res a b

/-- **C5**: the depth lookup returns the deep-water sentinel `-1000` when
no dataset is configured or the coordinate is outside coverage, and the
sentinel always yields penalty factor 1 (so such edges keep their bare
distance as weight). -/
theorem C5_sentinel_depth :
    (∀ (lp : Option (List (ℚ → ℚ → Option Bool))) (res lon lat : ℚ),
      BathymetryRouter.get_depth ⟨none, lp, res⟩ lon lat = -1000) ∧
    (∀ (sample : ℚ → ℚ → Option ℚ) (lp : Option (List (ℚ → ℚ → Option Bool)))
      (res lon lat : ℚ), sample lon lat = none →
      BathymetryRouter.get_depth ⟨some sample, lp, res⟩ lon lat = -1000) ∧
    spec_penalty (-1000) = 1 ∧
    (∀ (hav : Coord → Coord → ℚ) (sample : ℚ → ℚ → Option ℚ)
      (lp : Option (List (ℚ → ℚ → Option Bool))) (res : ℚ) (a b : Coord),
      sample a.2 a.1 = none → sample b.2 b.1 = none →
      BathymetryRouter.compute_edge_weight hav ⟨some sample, lp, res⟩ a b true =
        hav a b) := by
  refine ⟨fun lp res lon lat => rfl, ?_, by norm_num [spec_penalty], ?_⟩
  · intro sample lp res lon lat hs
    show BathymetryRouter.depth_read sample lon lat = -1000
    unfold BathymetryRouter.depth_read
    rw [hs]
  · intro hav sample lp res a b ha hb
    rw [BathymetryRouter.compute_edge_weight_spec]
    show hav a b * spec_penalty
      ((BathymetryRouter.depth_read sample a.2 a.1 +
        BathymetryRouter.depth_read sample b.2 b.1) / 2) = hav a b
    unfold BathymetryRouter.depth_read
    rw [ha, hb]
    norm_num [spec_penalty]

/-- Witness for C5: a raster that covers nothing at all behaves as deep
water and leaves the weight untouched. -/
theorem C5_sentinel_depth_witness :
    BathymetryRouter.get_depth ⟨some fun _ _ => none, none, 1⟩ 3 4 = -1000 ∧
    BathymetryRouter.compute_edge_weight Ex.l1dist
      ⟨some fun _ _ => none, none, 1⟩ (0, 0) (2, 0) true = Ex.l1dist (0, 0) (2, 0) :=
  ⟨C5_sentinel_depth.2.1 (fun _ _ => none) none 1 3 4 rfl,
   C5_sentinel_depth.2.2.2 Ex.l1dist (fun _ _ => none) none 1 (0, 0) (2, 0) rfl rfl⟩

/-- **C7**: land classification always returns a boolean, and reports
water everywhere when the land dataset failed to load or is empty. -/
theorem C7_land_fail_open (r : BathymetryRouter) (lon lat : ℚ) :
    (BathymetryRouter.is_on_land r lon lat = true ∨
      BathymetryRouter.is_on_land r lon lat = false) ∧
    (r.land_polygons = none ∨ r.land_polygons = some [] →
      BathymetryRouter.is_on_land r lon lat = false) := by
  refine ⟨Bool.eq_false_or_eq_true _, ?_⟩
  rintro (h | h) <;>
    · obtain ⟨b, l, res⟩ := r
      simp only at h
      subst h
      simp [BathymetryRouter.is_on_land]

/-- Witness for C7: a router whose land dataset failed to load reports
water at an arbitrary (out-of-range) coordinate. -/
theorem C7_land_fail_open_witness :
    BathymetryRouter.is_on_land ⟨none, none, 1⟩ 540 (-123) = false :=
  (C7_land_fail_open ⟨none, none, 1⟩ 540 (-123)).2 (Or.inl rfl)

/-- **C9**: the pipeline is deterministic — two runs on identical inputs
produce identical water-node lists and identical route results. -/
theorem C9_determinism (hav : Coord → Coord → ℚ) (r : BathymetryRouter)
    (s e : Coord) (useB : Bool) (fuel : ℕ) :
    BathymetryRouter.generate_water_grid r s e =
      BathymetryRouter.generate_water_grid r s e ∧
    BathymetryRouter.optimize_route hav r s e useB fuel =
      BathymetryRouter.optimize_route hav r s e useB fuel :=
  ⟨rfl, rfl⟩

/-- **C10**: when the simple optimizer's A* search finds no path, the
returned direct-route fallback reports zero fuel cost and zero emissions
while its distance is the (generally nonzero) direct distance. -/
theorem C10_fallback_zero_costs (havNmi havKm : Coord → Coord → ℚ)
    (s e : Coord) (way : List Coord) (weather : List RouteOpt.Hazard)
    (fuel : ℕ)
    (h : RouteOpt.simple_astar havNmi havKm s e way weather fuel =
      .error .noPath) :
    RouteOpt.optimize_route havNmi havKm s e way weather fuel =
      .ok ⟨[s, e], havNmi s e, 0, 0, 2,
        some "No optimal path found, returning direct route"⟩ := by
  unfold RouteOpt.optimize_route
  rw [h]

set_option maxRecDepth 4000 in
set_option maxHeartbeats 800000 in
/-- Witness for C10: a disconnected two-component instance takes the
fallback, reporting 700 nmi but zero fuel and emissions. -/
theorem C10_fallback_zero_costs_witness :
    RouteOpt.optimize_route Ex.l1dist Ex.l1dist (0, 0) (0, 700)
      [((0 : ℚ), (100 : ℚ)), ((0 : ℚ), (650 : ℚ))] [] 40 =
      .ok ⟨[(0, 0), (0, 700)], Ex.l1dist (0, 0) (0, 700), 0, 0, 2,
        some "No optimal path found, returning direct route"⟩ ∧
    Ex.l1dist (0, 0) (0, 700) = 700 :=
  ⟨C10_fallback_zero_costs Ex.l1dist Ex.l1dist (0, 0) (0, 700)
    [((0 : ℚ), (100 : ℚ)), ((0 : ℚ), (650 : ℚ))] [] 40 (by
      have hG : RouteOpt.create_route_graph Ex.l1dist Ex.l1dist
          [((0 : ℚ), (0 : ℚ)), ((0 : ℚ), (100 : ℚ)), ((0 : ℚ), (650 : ℚ)),
            ((0 : ℚ), (700 : ℚ))] [] =
          [(0, 1, ⟨4633 / 100, 100, 18000, 93, 0⟩),
           (2, 3, ⟨4633 / 200, 50, 9000, 93 / 2, 0⟩)] := by
        with_unfolding_all rfl
      norm_num [RouteOpt.simple_astar, RouteOpt.all_wps, hG, NX.astar_path, NX.loop,
        NX.popMin, NX.findMin, NX.entryLt, NX.eraseFirst, NX.relax, adjOf, gNodes,
        alookup, ainsert, NX.reconstruct, NX.reconGo, RouteOpt.simple_heur,
        Ex.l1dist, Ex.qabs, -Prod.mk_zero_zero]),
   by norm_num [Ex.l1dist, Ex.qabs, -Prod.mk_zero_zero]⟩

/-- **C1** (amended: the invariant holds for the bathymetry router's
graphs): every edge of `build_graph` has `weight ≥ distance`, with
equality when the depth penalty is disabled.  (The simple optimizer's
graphs violate it, see the counterexample.) -/
theorem C1_weight_ge_distance (hav : Coord → Coord → ℚ)
    (hnn : ∀ a b, 0 ≤ hav a b) (r : BathymetryRouter) (nodes : List Coord)
    (useB : Bool) (i j : ℕ) (d : BathymetryRouter.EdgeData)
    (h : (i, j, d) ∈ BathymetryRouter.build_graph hav r nodes useB) :
    d.distance ≤ d.weight ∧ (useB = false → d.weight = d.distance) := by
  obtain ⟨hij, hjl, hc, rfl⟩ := BathymetryRouter.build_graph_mem h
  constructor
  · exact BathymetryRouter.compute_edge_weight_ge hav hnn r _ _ useB
  · rintro rfl
    exact BathymetryRouter.compute_edge_weight_false hav r _ _

/-- Witness for C1 on a concrete shallow-water graph (penalty ×10). -/
theorem C1_weight_ge_distance_witness :
    (⟨20, 2, 10⟩ : BathymetryRouter.EdgeData).distance ≤
      (⟨20, 2, 10⟩ : BathymetryRouter.EdgeData).weight ∧
    (true = false → (⟨20, 2, 10⟩ : BathymetryRouter.EdgeData).weight =
      (⟨20, 2, 10⟩ : BathymetryRouter.EdgeData).distance) :=
  C1_weight_ge_distance Ex.l1dist l1dist_nonneg Ex.c8r
    [(0, 0), (2, 0)] true 0 1 ⟨20, 2, 10⟩ (by with_unfolding_all decide)

/-- Counterexample to C1 as stated: in the simple optimizer's graph the
combined weight of a hazard-free edge is `0.4633 × distance`, strictly
below the great-circle distance attribute. -/
theorem C1_counterexample :
    RouteOpt.create_route_graph Ex.l1dist Ex.l1dist
      [((0 : ℚ), (0 : ℚ)), ((100 : ℚ), (0 : ℚ))] [] =
      [(0, 1, ⟨4633 / 100, 100, 18000, 93, 0⟩)] ∧
    (4633 / 100 : ℚ) < 100 := by
  constructor
  · with_unfolding_all rfl
  · norm_num

/-! ## Degenerate-graph helpers -/

/-- With fewer than two nodes no pair `i < j` exists, so the graph has no
edges. -/
theorem build_graph_short {hav : Coord → Coord → ℚ} {r : BathymetryRouter}
    {nodes : List Coord} {useB : Bool} (h : nodes.length < 2) :
    BathymetryRouter.build_graph hav r nodes useB = [] := by
  rcases (show nodes.length = 0 ∨ nodes.length = 1 by omega) with h0 | h1
  · unfold BathymetryRouter.build_graph
    rw [h0]
    rfl
  · unfold BathymetryRouter.build_graph
    rw [h1]
    rfl

/-- A search over the empty node list rejects the endpoints. -/
theorem astar_path_nil_nodes (adj : ℕ → List (ℕ × ℚ)) (s t : ℕ)
    (heur : ℕ → ℚ) (fuel : ℕ) :
    NX.astar_path adj [] s t heur fuel = .error .nodeNotFound := by
  unfold NX.astar_path
  simp

/-- When the built graph is empty the A* call raises `NodeNotFound`. -/
theorem bathy_astar_graph_nil {hav : Coord → Coord → ℚ} {r : BathymetryRouter}
    {s e : Coord} {useB : Bool} {fuel : ℕ}
    (h : BathymetryRouter.build_graph hav r
      (BathymetryRouter.generate_water_grid r s e) useB = []) :
    BathymetryRouter.bathy_astar hav r s e useB fuel = .error .nodeNotFound := by
  simp only [BathymetryRouter.bathy_astar]
  rw [h]
  exact astar_path_nil_nodes _ _ _ _ _

/-- A node without neighbors reaches nothing else. -/
theorem no_path_of_no_adj (adj : ℕ → List (ℕ × ℚ)) (s t : ℕ)
    (hadj : adj s = []) (hst : s ≠ t) : ¬ ∃ p, IsPath adj s t p := by
  rintro ⟨p, hne, hh, hl, hc⟩
  cases p with
  | nil => exact hne rfl
  | cons a q =>
    cases q with
    | nil =>
      simp only [List.head?_cons, Option.some.injEq] at hh
      simp only [List.getLast?_singleton, Option.some.injEq] at hl
      exact hst (hh ▸ hl ▸ rfl)
    | cons b r =>
      have hab : Adj adj a b := (List.chain'_cons.mp hc).1
      simp only [List.head?_cons, Option.some.injEq] at hh
      subst hh
      unfold Adj at hab
      rw [hadj] at hab
      simp at hab

/-- A path has at least one edge iff it has at least two nodes. -/
theorem pairsOf_ne_nil_iff {α : Type} (p : List α) :
    pairsOf p ≠ [] ↔ 1 < p.length := by
  match p with
  | [] => simp [pairsOf]
  | [a] => simp [pairsOf]
  | a :: b :: r => simp [pairsOf, Nat.lt_add_of_pos_left]

/-! ## Concrete pipeline runs (shared by witnesses and counterexamples) -/

namespace Ex

/-- The water grid of the two-water-node instance. -/
theorem c8grid : BathymetryRouter.generate_water_grid c8r (1, 0) (3 / 2, 0) =
    [(0, -5), (2, -5)] := by with_unfolding_all rfl

/-- Its one-edge graph: distance `100.118`, shallow-water penalty 10. -/
theorem c8graph : BathymetryRouter.build_graph hav8 c8r [(0, -5), (2, -5)] true =
    [(0, 1, ⟨50059 / 50, 50059 / 500, 10⟩)] := by with_unfolding_all rfl

/-- Its A* call returns the one-edge path. -/
theorem c8astar : BathymetryRouter.bathy_astar hav8 c8r (1, 0) (3 / 2, 0) true 50 =
    .ok [0, 1] := by
  have hsi : BathymetryRouter.find_nearest_node hav8 (1, 0) [(0, -5), (2, -5)] = 0 := by
    with_unfolding_all rfl
  have hei : BathymetryRouter.find_nearest_node hav8 (3 / 2, 0) [(0, -5), (2, -5)] = 1 := by
    with_unfolding_all rfl
  norm_num [BathymetryRouter.bathy_astar, c8grid, c8graph, hsi, hei,
    BathymetryRouter.bathy_heur, NX.astar_path, NX.loop, NX.popMin, NX.findMin,
    NX.entryLt, NX.eraseFirst, NX.relax, adjOf, gNodes, alookup, ainsert,
    NX.reconstruct, NX.reconGo, hav8, l1dist, qabs]

/-- The two-water-node shallow router routes successfully: one edge,
distance `100.118` reported as `100.12`, average penalty `10`. -/
theorem c8run :
    BathymetryRouter.optimize_route hav8 c8r (1, 0) (3 / 2, 0) true 50 =
      .ok ⟨[(0, -5), (2, -5)], 2503 / 25, 2, 10, true, none⟩ := by
  have hrd : round2 (50059 / 500) = 2503 / 25 := by with_unfolding_all rfl
  have hrd10 : round2 10 = 10 := by with_unfolding_all rfl
  norm_num [BathymetryRouter.optimize_route, c8grid, c8graph, c8astar,
    BathymetryRouter.bathy_summary, pairsOf, edge_data, hrd, hrd10]

/-- The same route with no depth raster: penalty 1 throughout, yet the
reported `bathymetry_enabled` is the request flag `true`. -/
theorem c6run :
    BathymetryRouter.optimize_route hav8 c6r (1, 0) (3 / 2, 0) true 50 =
      .ok ⟨[(0, -5), (2, -5)], 2503 / 25, 2, 1, true, none⟩ := by
  have hgrid : BathymetryRouter.generate_water_grid c6r (1, 0) (3 / 2, 0) =
      [(0, -5), (2, -5)] := by with_unfolding_all rfl
  have hGr : BathymetryRouter.build_graph hav8 c6r [(0, -5), (2, -5)] true =
      [(0, 1, ⟨50059 / 500, 50059 / 500, 1⟩)] := by with_unfolding_all rfl
  have hsi : BathymetryRouter.find_nearest_node hav8 (1, 0) [(0, -5), (2, -5)] = 0 := by
    with_unfolding_all rfl
  have hei : BathymetryRouter.find_nearest_node hav8 (3 / 2, 0) [(0, -5), (2, -5)] = 1 := by
    with_unfolding_all rfl
  have hastar : BathymetryRouter.bathy_astar hav8 c6r (1, 0) (3 / 2, 0) true 50 =
      .ok [0, 1] := by
    norm_num [BathymetryRouter.bathy_astar, hgrid, hGr, hsi, hei,
      BathymetryRouter.bathy_heur, NX.astar_path, NX.loop, NX.popMin, NX.findMin,
      NX.entryLt, NX.eraseFirst, NX.relax, adjOf, gNodes, alookup, ainsert,
      NX.reconstruct, NX.reconGo, hav8, l1dist, qabs]
  have hrd : round2 (50059 / 500) = 2503 / 25 := by with_unfolding_all rfl
  have hrd1 : round2 1 = 1 := by with_unfolding_all rfl
  norm_num [BathymetryRouter.optimize_route, hgrid, hGr, hastar,
    BathymetryRouter.bathy_summary, pairsOf, edge_data, hrd, hrd1]

/-- The isolated-nearest-node instance: the graph is nonempty, but the
nearest node to the origin has no incident edges; the `NodeNotFound`
exception escapes `optimize_route` as a failure. -/
theorem c3run :
    BathymetryRouter.optimize_route l1dist c3r (9, 1) (1, 1) true 50 =
      .error "NodeNotFound" := by
  have hgrid : BathymetryRouter.generate_water_grid c3r (9, 1) (1, 1) =
      [(0, 0), (2, 0), (10, 0)] := by with_unfolding_all rfl
  have hGr : BathymetryRouter.build_graph l1dist c3r [(0, 0), (2, 0), (10, 0)] true =
      [(0, 1, ⟨2, 2, 1⟩)] := by with_unfolding_all rfl
  have hsi : BathymetryRouter.find_nearest_node l1dist (9, 1)
      [(0, 0), (2, 0), (10, 0)] = 2 := by with_unfolding_all rfl
  have hei : BathymetryRouter.find_nearest_node l1dist (1, 1)
      [(0, 0), (2, 0), (10, 0)] = 0 := by with_unfolding_all rfl
  have hastar : BathymetryRouter.bathy_astar l1dist c3r (9, 1) (1, 1) true 50 =
      .error .nodeNotFound := by
    norm_num [BathymetryRouter.bathy_astar, hgrid, hGr, hsi, hei, NX.astar_path,
      gNodes, -Prod.mk_zero_zero, -Prod.mk_one_one]
  norm_num [BathymetryRouter.optimize_route, hgrid, hGr, hastar,
    -Prod.mk_zero_zero, -Prod.mk_one_one]

end Ex

/-! ## Claims C3, C6, C8 -/

/-- **C3** (amended): the three in-code degradation cases — fewer than two
water nodes, an edgeless graph, and a caught `NetworkXNoPath` — all
return the two-point direct route with a non-empty warning and the flag
off; but when the nearest node to origin or destination is isolated in a
non-degenerate graph, the search raises `NodeNotFound`, which is not
caught (see the counterexample). -/
theorem C3_fallbacks (hav : Coord → Coord → ℚ) (r : BathymetryRouter)
    (s e : Coord) (useB : Bool) (fuel : ℕ) :
    ((BathymetryRouter.generate_water_grid r s e).length < 2 →
      BathymetryRouter.optimize_route hav r s e useB fuel =
        .ok (BathymetryRouter.direct_fallback hav s e
          "Insufficient water nodes, using direct route")) ∧
    (¬ (BathymetryRouter.generate_water_grid r s e).length < 2 →
      BathymetryRouter.build_graph hav r
        (BathymetryRouter.generate_water_grid r s e) useB = [] →
      BathymetryRouter.optimize_route hav r s e useB fuel =
        .ok (BathymetryRouter.direct_fallback hav s e
          "No navigable path found, using direct route")) ∧
    (BathymetryRouter.bathy_astar hav r s e useB fuel = .error .noPath →
      BathymetryRouter.optimize_route hav r s e useB fuel =
        .ok (BathymetryRouter.direct_fallback hav s e
          "No path found, using direct route")) ∧
    (∀ msg, (BathymetryRouter.direct_fallback hav s e msg).route = [s, e] ∧
      (BathymetryRouter.direct_fallback hav s e msg).bathymetry_enabled = false ∧
      (BathymetryRouter.direct_fallback hav s e msg).warning = some msg) ∧
    ("Insufficient water nodes, using direct route" ≠ "" ∧
      "No navigable path found, using direct route" ≠ "" ∧
      "No path found, using direct route" ≠ "") := by
  refine ⟨?_, ?_, ?_, fun msg => ⟨rfl, rfl, rfl⟩, by decide, by decide, by decide⟩
  · intro h
    unfold BathymetryRouter.optimize_route
    rw [if_pos h]
  · intro h1 h2
    unfold BathymetryRouter.optimize_route
    rw [if_neg h1, h2]
    simp
  · intro h3
    have h1 : ¬ (BathymetryRouter.generate_water_grid r s e).length < 2 := by
      intro hlt
      rw [bathy_astar_graph_nil (build_graph_short hlt)] at h3
      exact NX.Err.noConfusion (Except.error.inj h3)
    have h2 : ¬ (BathymetryRouter.build_graph hav r
        (BathymetryRouter.generate_water_grid r s e) useB).length = 0 := by
      intro hlen
      rw [bathy_astar_graph_nil (List.length_eq_zero.mp hlen)] at h3
      exact NX.Err.noConfusion (Except.error.inj h3)
    unfold BathymetryRouter.optimize_route
    rw [if_neg h1, if_neg h2, h3]

/-- Witness for C3: an all-land dataset produces no water nodes, and the
call degrades to the direct route. -/
theorem C3_fallbacks_witness :
    BathymetryRouter.optimize_route Ex.l1dist Ex.rAllLand (0, 0) (1, 1) true 5 =
      .ok (BathymetryRouter.direct_fallback Ex.l1dist (0, 0) (1, 1)
        "Insufficient water nodes, using direct route") :=
  (C3_fallbacks Ex.l1dist Ex.rAllLand (0, 0) (1, 1) true 5).1
    (by with_unfolding_all decide)

/-- Counterexample to C3 as stated: a grid with three water nodes whose
graph has an edge, where no path exists between the chosen start and end
nodes (the start's nearest node is isolated) — and the computation fails
with `NodeNotFound` instead of returning the direct route. -/
theorem C3_counterexample :
    2 ≤ (BathymetryRouter.generate_water_grid Ex.c3r (9, 1) (1, 1)).length ∧
    BathymetryRouter.build_graph Ex.l1dist Ex.c3r
      (BathymetryRouter.generate_water_grid Ex.c3r (9, 1) (1, 1)) true ≠ [] ∧
    ¬ (∃ p, IsPath
        (adjOf BathymetryRouter.EdgeData.weight
          (BathymetryRouter.build_graph Ex.l1dist Ex.c3r
            (BathymetryRouter.generate_water_grid Ex.c3r (9, 1) (1, 1)) true))
        (BathymetryRouter.find_nearest_node Ex.l1dist (9, 1)
          (BathymetryRouter.generate_water_grid Ex.c3r (9, 1) (1, 1)))
        (BathymetryRouter.find_nearest_node Ex.l1dist (1, 1)
          (BathymetryRouter.generate_water_grid Ex.c3r (9, 1) (1, 1))) p) ∧
    BathymetryRouter.optimize_route Ex.l1dist Ex.c3r (9, 1) (1, 1) true 50 =
      .error "NodeNotFound" := by
  have hgrid : BathymetryRouter.generate_water_grid Ex.c3r (9, 1) (1, 1) =
      [(0, 0), (2, 0), (10, 0)] := by with_unfolding_all rfl
  have hGr : BathymetryRouter.build_graph Ex.l1dist Ex.c3r
      [(0, 0), (2, 0), (10, 0)] true = [(0, 1, ⟨2, 2, 1⟩)] := by
    with_unfolding_all rfl
  have hsi : BathymetryRouter.find_nearest_node Ex.l1dist (9, 1)
      [(0, 0), (2, 0), (10, 0)] = 2 := by with_unfolding_all rfl
  have hei : BathymetryRouter.find_nearest_node Ex.l1dist (1, 1)
      [(0, 0), (2, 0), (10, 0)] = 0 := by with_unfolding_all rfl
  refine ⟨by rw [hgrid]; decide, by rw [hgrid, hGr]; decide, ?_, Ex.c3run⟩
  rw [hgrid, hGr, hsi, hei]
  exact no_path_of_no_adj _ 2 0 rfl (by decide)

/-- **C6** (amended): with the depth dataset unavailable, a successful
(warning-free) response reports `bathymetry_enabled` equal to the
requested `use_bathymetry` flag — dataset unavailability is NOT reflected
as `false`; only the fallback (warning-carrying) responses report
`false`. -/
theorem C6_flag_reports_request (hav : Coord → Coord → ℚ)
    (lp : Option (List (ℚ → ℚ → Option Bool))) (reso : ℚ) (s e : Coord)
    (useB : Bool) (fuel : ℕ) (res : BathymetryRouter.RouteResult)
    (hok : BathymetryRouter.optimize_route hav ⟨none, lp, reso⟩ s e useB fuel =
      .ok res) :
    (res.warning = none → res.bathymetry_enabled = useB) ∧
    (res.warning ≠ none → res.bathymetry_enabled = false) := by
  unfold BathymetryRouter.optimize_route at hok
  split_ifs at hok with h1 h2
  · obtain rfl := Except.ok.inj hok
    exact ⟨fun hw => Option.noConfusion hw, fun _ => rfl⟩
  · obtain rfl := Except.ok.inj hok
    exact ⟨fun hw => Option.noConfusion hw, fun _ => rfl⟩
  · split at hok <;>
      first
        | exact Except.noConfusion hok
        | (obtain rfl := Except.ok.inj hok
           exact ⟨fun _ => rfl, fun hw => absurd rfl hw⟩)
        | (obtain rfl := Except.ok.inj hok
           exact ⟨fun hw => Option.noConfusion hw, fun _ => rfl⟩)

/-- Witness for C6 applied to a concrete warning-free degraded run. -/
theorem C6_flag_reports_request_witness :
    ((⟨[(0, -5), (2, -5)], 2503 / 25, 2, 1, true, none⟩ :
      BathymetryRouter.RouteResult).warning = none →
      (⟨[(0, -5), (2, -5)], 2503 / 25, 2, 1, true, none⟩ :
        BathymetryRouter.RouteResult).bathymetry_enabled = true) ∧
    ((⟨[(0, -5), (2, -5)], 2503 / 25, 2, 1, true, none⟩ :
      BathymetryRouter.RouteResult).warning ≠ none →
      (⟨[(0, -5), (2, -5)], 2503 / 25, 2, 1, true, none⟩ :
        BathymetryRouter.RouteResult).bathymetry_enabled = false) :=
  C6_flag_reports_request Ex.hav8 Ex.c8land 2 (1, 0) (3 / 2, 0) true 50
    ⟨[(0, -5), (2, -5)], 2503 / 25, 2, 1, true, none⟩ Ex.c6run

/-- Counterexample to C6 as stated: the depth dataset is unavailable
(`bathymetry = none`), the request is answered, and the response reports
`bathymetry_enabled = true`, not `false`. -/
theorem C6_counterexample :
    BathymetryRouter.optimize_route Ex.hav8 ⟨none, Ex.c8land, 2⟩ (1, 0) (3 / 2, 0)
      true 50 =
      .ok ⟨[(0, -5), (2, -5)], 2503 / 25, 2, 1, true, none⟩ ∧
    ¬ (⟨[(0, -5), (2, -5)], 2503 / 25, 2, 1, true, none⟩ :
      BathymetryRouter.RouteResult).bathymetry_enabled = false :=
  ⟨Ex.c6run, by decide⟩

/-- **C8** (amended): for every found path the summary reports the sum of
the edge `distance` attributes ROUNDED to two decimals, and the average
penalty is the ROUNDED arithmetic mean of the edge penalties whenever
the path has at least one edge (so a one-edge path reports that edge's
penalty, not 1.0); the value 1.0 is used only for paths with fewer than
two nodes. -/
theorem C8_summary_metrics (hav : Coord → Coord → ℚ) (r : BathymetryRouter)
    (s e : Coord) (useB : Bool) (fuel : ℕ) (p : List ℕ)
    (hpath : BathymetryRouter.bathy_astar hav r s e useB fuel = .ok p) :
    BathymetryRouter.optimize_route hav r s e useB fuel =
      .ok (BathymetryRouter.bathy_summary
        (BathymetryRouter.build_graph hav r
          (BathymetryRouter.generate_water_grid r s e) useB)
        (BathymetryRouter.generate_water_grid r s e) useB p) ∧
    ∀ (G : List (ℕ × ℕ × BathymetryRouter.EdgeData)) (nodes : List Coord),
      (BathymetryRouter.bathy_summary G nodes useB p).total_distance_nm =
        round2 ((pairsOf p).map fun q =>
          ((edge_data G q.1 q.2).getD ⟨0, 0, 1⟩).distance).sum ∧
      (pairsOf p ≠ [] →
        (BathymetryRouter.bathy_summary G nodes useB p).avg_depth_penalty =
          round2 (((pairsOf p).map fun q =>
            ((edge_data G q.1 q.2).getD ⟨0, 0, 1⟩).depth_penalty).sum /
            ((pairsOf p).length : ℚ))) ∧
      (pairsOf p = [] →
        (BathymetryRouter.bathy_summary G nodes useB p).avg_depth_penalty = 1) := by
  constructor
  · have h1 : ¬ (BathymetryRouter.generate_water_grid r s e).length < 2 := by
      intro hlt
      rw [bathy_astar_graph_nil (build_graph_short hlt)] at hpath
      exact Except.noConfusion hpath
    have h2 : ¬ (BathymetryRouter.build_graph hav r
        (BathymetryRouter.generate_water_grid r s e) useB).length = 0 := by
      intro hlen
      rw [bathy_astar_graph_nil (List.length_eq_zero.mp hlen)] at hpath
      exact Except.noConfusion hpath
    unfold BathymetryRouter.optimize_route
    rw [if_neg h1, if_neg h2, hpath]
  · intro G nodes
    refine ⟨rfl, ?_, ?_⟩
    · intro hne
      have hlt := (pairsOf_ne_nil_iff p).mp hne
      simp only [BathymetryRouter.bathy_summary]
      rw [if_pos hlt]
    · intro hnil
      have hle : ¬ 1 < p.length := fun hlt => (pairsOf_ne_nil_iff p).mpr hlt hnil
      simp only [BathymetryRouter.bathy_summary]
      rw [if_neg hle]
      with_unfolding_all rfl

/-- Witness for C8 on the concrete one-edge run. -/
theorem C8_summary_metrics_witness :
    BathymetryRouter.optimize_route Ex.hav8 Ex.c8r (1, 0) (3 / 2, 0) true 50 =
      .ok (BathymetryRouter.bathy_summary
        (BathymetryRouter.build_graph Ex.hav8 Ex.c8r
          (BathymetryRouter.generate_water_grid Ex.c8r (1, 0) (3 / 2, 0)) true)
        (BathymetryRouter.generate_water_grid Ex.c8r (1, 0) (3 / 2, 0)) true
        [0, 1]) :=
  (C8_summary_metrics Ex.hav8 Ex.c8r (1, 0) (3 / 2, 0) true 50 [0, 1] Ex.c8astar).1

/-- Counterexample to C8 as stated: a found one-edge path whose reported
total (100.12) differs from the exact sum of the edge distances
(100.118), and whose reported average penalty is 10 although the path
has fewer than 2 edges (the claim says 1.0 then). -/
theorem C8_counterexample :
    BathymetryRouter.optimize_route Ex.hav8 Ex.c8r (1, 0) (3 / 2, 0) true 50 =
      .ok ⟨[(0, -5), (2, -5)], 2503 / 25, 2, 10, true, none⟩ ∧
    BathymetryRouter.bathy_astar Ex.hav8 Ex.c8r (1, 0) (3 / 2, 0) true 50 =
      .ok [0, 1] ∧
    ((pairsOf [0, 1]).map fun q =>
      ((edge_data (BathymetryRouter.build_graph Ex.hav8 Ex.c8r
          (BathymetryRouter.generate_water_grid Ex.c8r (1, 0) (3 / 2, 0)) true)
        q.1 q.2).getD ⟨0, 0, 1⟩).distance).sum = 50059 / 500 ∧
    (2503 / 25 : ℚ) ≠ 50059 / 500 ∧
    (pairsOf ([0, 1] : List ℕ)).length = 1 ∧
    (10 : ℚ) ≠ 1 := by
  refine ⟨Ex.c8run, Ex.c8astar, ?_, by norm_num, by decide, by norm_num⟩
  rw [Ex.c8grid, Ex.c8graph]
  norm_num [pairsOf, edge_data]

/-! ## Association-list and heap lemmas -/

theorem alookup_ainsert_self {α : Type} (m : List (ℕ × α)) (k : ℕ) (v : α) :
    alookup (ainsert m k v) k = some v := by
  induction m with
  | nil => simp [ainsert, alookup]
  | cons p rest ih =>
    obtain ⟨k', v'⟩ := p
    by_cases h : k' = k
    · subst h
      simp [ainsert, alookup]
    · simp [ainsert, alookup, h, ih]

theorem alookup_ainsert_ne {α : Type} (m : List (ℕ × α)) {k k' : ℕ} (v : α)
    (h : k' ≠ k) : alookup (ainsert m k v) k' = alookup m k' := by
  induction m with
  | nil => simp [ainsert, alookup, Ne.symm h]
  | cons p rest ih =>
    obtain ⟨k0, v0⟩ := p
    by_cases h0 : k0 = k
    · subst h0
      simp [ainsert, alookup, Ne.symm h]
    · by_cases h1 : k0 = k'
      · subst h1
        simp [ainsert, alookup, h0]
      · simp [ainsert, alookup, h0, h1, ih]

namespace NX

/-- `b` is no smaller than `a` in the heap's lexicographic key order. -/
theorem not_entryLt_iff (a b : Entry) :
    ¬ entryLt a b ↔ b.f < a.f ∨ (b.f = a.f ∧ b.cnt ≤ a.cnt) := by
  unfold entryLt
  constructor
  · intro h
    push_neg at h
    rcases lt_trichotomy a.f b.f with hf | hf | hf
    · linarith [h.1]
    · exact Or.inr ⟨hf.symm, h.2 hf⟩
    · exact Or.inl hf
  · rintro (hf | ⟨hf, hc⟩) (h1 | ⟨h2, h3⟩) <;> first | linarith | omega

theorem entryLt_irrefl (a : Entry) : ¬ entryLt a a := by
  rintro (h | ⟨_, h⟩)
  · exact lt_irrefl _ h
  · exact lt_irrefl _ h

/-- `findMin` returns an element of the list, minimal w.r.t. `entryLt`. -/
theorem findMin_spec (e : Entry) (l : List Entry) :
    findMin e l ∈ e :: l ∧ ∀ x ∈ e :: l, ¬ entryLt x (findMin e l) := by
  induction l generalizing e with
  | nil =>
    refine ⟨List.mem_singleton_self e, ?_⟩
    intro x hx
    rw [List.mem_singleton] at hx
    subst hx
    exact entryLt_irrefl x
  | cons e' rest ih =>
    by_cases hlt : entryLt e' e
    · have key : findMin e (e' :: rest) = findMin e' rest := by
        show findMin (if entryLt e' e then e' else e) rest = findMin e' rest
        rw [if_pos hlt]
      obtain ⟨ihm, ihmin⟩ := ih e'
      rw [key]
      refine ⟨?_, ?_⟩
      · rcases List.mem_cons.mp ihm with hm | hm
        · simp [hm]
        · simp [hm]
      · intro x hx
        rcases List.mem_cons.mp hx with rfl | hx'
        · have hbase := ihmin e' (List.mem_cons_self _ _)
          intro hcon
          rw [not_entryLt_iff] at hbase
          rcases hbase with h | ⟨h1, h2⟩ <;>
            rcases hlt with h' | ⟨h1', h2'⟩ <;>
            rcases hcon with h'' | ⟨h1'', h2''⟩ <;> first | linarith | omega
        · exact ihmin x hx'
    · have key : findMin e (e' :: rest) = findMin e rest := by
        show findMin (if entryLt e' e then e' else e) rest = findMin e rest
        rw [if_neg hlt]
      obtain ⟨ihm, ihmin⟩ := ih e
      rw [key]
      refine ⟨?_, ?_⟩
      · rcases List.mem_cons.mp ihm with hm | hm
        · simp [hm]
        · simp [hm]
      · intro x hx
        rcases List.mem_cons.mp hx with rfl | hx'
        · exact ihmin x (List.mem_cons_self _ _)
        · rcases List.mem_cons.mp hx' with rfl | hx''
          · have hbase := ihmin e (List.mem_cons_self _ _)
            intro hcon
            rw [not_entryLt_iff] at hbase hlt
            rcases hbase with h | ⟨h1, h2⟩ <;>
              rcases hlt with h' | ⟨h1', h2'⟩ <;>
              rcases hcon with h'' | ⟨h1'', h2''⟩ <;> first | linarith | omega
          · exact ihmin x (List.mem_cons_of_mem _ hx'')

theorem eraseFirst_subset {l : List Entry} {a x : Entry}
    (h : x ∈ eraseFirst l a) : x ∈ l := by
  induction l with
  | nil => simp [eraseFirst] at h
  | cons e rest ih =>
    unfold eraseFirst at h
    split_ifs at h with he
    · exact List.mem_cons_of_mem _ h
    · rcases List.mem_cons.mp h with rfl | h'
      · exact List.mem_cons_self _ _
      · exact List.mem_cons_of_mem _ (ih h')

theorem mem_eraseFirst_of_ne {l : List Entry} {a x : Entry}
    (hx : x ∈ l) (hne : x ≠ a) : x ∈ eraseFirst l a := by
  induction l with
  | nil => simp at hx
  | cons e rest ih =>
    unfold eraseFirst
    rcases List.mem_cons.mp hx with rfl | h'
    · rw [if_neg hne]
      exact List.mem_cons_self _ _
    · split_ifs with he
      · exact h'
      · exact List.mem_cons_of_mem _ (ih h')

/-- What `popMin` returns: a member minimal in the key order, and the
list with its first occurrence removed. -/
theorem popMin_spec {L : List Entry} {m : Entry} {rest : List Entry}
    (h : popMin L = some (m, rest)) :
    m ∈ L ∧ rest = eraseFirst L m ∧ ∀ x ∈ L, ¬ entryLt x m := by
  match L, h with
  | e :: l, h =>
    obtain ⟨hm, hmin⟩ := findMin_spec e l
    unfold popMin at h
    simp only [Option.some.injEq, Prod.mk.injEq] at h
    obtain ⟨rfl, rfl⟩ := h
    exact ⟨hm, rfl, hmin⟩

end NX

/-! ## Path lemmas -/

theorem chain_cost_nonneg {adj : ℕ → List (ℕ × ℚ)} {w : ℕ → ℕ → ℚ}
    (wnn : ∀ u v, Adj adj u v → 0 ≤ w u v) :
    ∀ {q : List ℕ}, List.Chain' (Adj adj) q → 0 ≤ pathCost w q
  | [], _ => le_refl 0
  | [_], _ => le_refl 0
  | a :: b :: r, hc => by
    obtain ⟨hab, hrest⟩ := List.chain'_cons.mp hc
    have ih := chain_cost_nonneg wnn hrest
    have hw := wnn a b hab
    unfold pathCost
    linarith

theorem pathCost_nonneg {adj : ℕ → List (ℕ × ℚ)} {w : ℕ → ℕ → ℚ}
    {s v : ℕ} {q : List ℕ} (wnn : ∀ u v, Adj adj u v → 0 ≤ w u v)
    (hq : IsPath adj s v q) : 0 ≤ pathCost w q :=
  chain_cost_nonneg wnn hq.2.2.2

theorem pathCost_append_last {w : ℕ → ℕ → ℚ} {v y : ℕ} :
    ∀ {p : List ℕ}, p.getLast? = some v →
      pathCost w (p ++ [y]) = pathCost w p + w v y
  | [], h => by simp at h
  | [a], h => by
    simp only [List.getLast?_singleton, Option.some.injEq] at h
    subst h
    simp [pathCost]
  | a :: b :: r, h => by
    rw [List.getLast?_cons_cons] at h
    have ih := @pathCost_append_last w v y (b :: r) h
    show w a b + pathCost w ((b :: r) ++ [y]) = w a b + pathCost w (b :: r) + w v y
    rw [ih]
    ring

theorem path_append {adj : ℕ → List (ℕ × ℚ)} {s v y : ℕ} {p : List ℕ}
    (hp : IsPath adj s v p) (hAdj : Adj adj v y) :
    IsPath adj s y (p ++ [y]) := by
  obtain ⟨hne, hh, hl, hc⟩ := hp
  refine ⟨by simp, ?_, ?_, ?_⟩
  · cases p with
    | nil => exact absurd rfl hne
    | cons a q => simpa using hh
  · simp
  · apply List.Chain'.append hc (List.chain'_singleton y)
    intro x hx y' hy'
    rw [hl] at hx
    simp only [Option.mem_def, Option.some.injEq, List.head?_cons] at hx hy'
    subst hx
    subst hy'
    exact hAdj

/-- Consistency telescoped along a path segment. -/
theorem heur_telescope {adj : ℕ → List (ℕ × ℚ)} {w : ℕ → ℕ → ℚ} {heur : ℕ → ℚ}
    (hcons : ∀ u v, Adj adj u v → heur u ≤ w u v + heur v) :
    ∀ {x v : ℕ} {r : List ℕ}, IsPath adj x v r →
      heur x ≤ pathCost w r + heur v
  | x, v, [], hp => absurd rfl hp.1
  | x, v, [a], hp => by
    obtain ⟨_, hh, hl, _⟩ := hp
    simp only [List.head?_cons, Option.some.injEq] at hh
    simp only [List.getLast?_singleton, Option.some.injEq] at hl
    subst hh
    subst hl
    simp [pathCost]
  | x, v, a :: b :: r, hp => by
    obtain ⟨_, hh, hl, hc⟩ := hp
    simp only [List.head?_cons, Option.some.injEq] at hh
    subst hh
    obtain ⟨hab, hrest⟩ := List.chain'_cons.mp hc
    rw [List.getLast?_cons_cons] at hl
    have htail : IsPath adj b v (b :: r) := ⟨List.cons_ne_nil _ _, rfl, hl, hrest⟩
    have ih := heur_telescope hcons htail
    have hstep := hcons _ _ hab
    show heur _ ≤ w _ b + pathCost w (b :: r) + heur v
    linarith

namespace NX

/-- Parent chains are determined by the map. -/
theorem Anc_det {E : List (ℕ × Option ℕ)} {po : Option ℕ} {l1 l2 : List ℕ}
    (h1 : Anc E po l1) (h2 : Anc E po l2) : l1 = l2 := by
  induction h1 generalizing l2 with
  | nil => cases h2; rfl
  | cons u pu l hl _ ih =>
    cases h2 with
    | cons _ pu' l' hl' ha' =>
      rw [hl] at hl'
      obtain rfl := Option.some.inj hl'
      rw [ih ha']

/-- Chains survive key-preserving map extensions. -/
theorem Anc_mono {E E' : List (ℕ × Option ℕ)}
    (hext : ∀ x po, alookup E x = some po → alookup E' x = some po)
    {po : Option ℕ} {l : List ℕ} (h : Anc E po l) : Anc E' po l := by
  induction h with
  | nil => exact Anc.nil
  | cons u pu l hl _ ih => exact Anc.cons u pu l (hext u pu hl) ih

theorem reconGo_sound {E : List (ℕ × Option ℕ)} :
    ∀ (fuel : ℕ) (po : Option ℕ) (acc r : List ℕ),
      reconGo E fuel po acc = some r → ∃ l, Anc E po l ∧ r = l ++ acc := by
  intro fuel
  induction fuel with
  | zero =>
    intro po acc r h
    cases po with
    | none =>
      simp only [reconGo, Option.some.injEq] at h
      subst h
      exact ⟨[], Anc.nil, rfl⟩
    | some p => simp [reconGo] at h
  | succ n ih =>
    intro po acc r h
    cases po with
    | none =>
      simp only [reconGo, Option.some.injEq] at h
      subst h
      exact ⟨[], Anc.nil, rfl⟩
    | some p =>
      unfold reconGo at h
      cases hl : alookup E p with
      | none => rw [hl] at h; simp at h
      | some pp =>
        rw [hl] at h
        obtain ⟨l, ha, rfl⟩ := ih pp (p :: acc) r h
        exact ⟨l ++ [p], Anc.cons p pp l hl ha, by simp⟩

theorem reconstruct_sound {E : List (ℕ × Option ℕ)} {cur : ℕ}
    {par : Option ℕ} {p : List ℕ} (h : reconstruct E cur par = some p) :
    ∃ l, Anc E par l ∧ p = l ++ [cur] :=
  reconGo_sound _ par [cur] p h

section AStarProof

variable {adj : ℕ → List (ℕ × ℚ)} {w : ℕ → ℕ → ℚ} {heur : ℕ → ℚ} {s t : ℕ}

/-- Walking a path from an explored node `x` to an unexplored node `v`
crosses the frontier: some live entry is at least as good as the path. -/
theorem inv_frontier {L : List Entry} {Q : List (ℕ × ℚ × ℚ)}
    {E : List (ℕ × Option ℕ)} {c : ℕ}
    (hw : ∀ u v cw, (v, cw) ∈ adj u → cw = w u v)
    (hcons : ∀ u v, Adj adj u v → heur u ≤ w u v + heur v)
    (hI : Inv adj w heur s t L Q E c) :
    ∀ (r : List ℕ) (x v : ℕ) (po : Option ℕ) (lx : List ℕ),
      IsPath adj x v r → alookup E x = some po → Anc E po lx →
      alookup E v = none →
      ∃ e' ∈ L, e'.dist + heur e'.node ≤
        pathCost w (lx ++ [x]) + pathCost w r + heur v
  | [], x, v, po, lx, hp, _, _, _ => absurd rfl hp.1
  | [a], x, v, po, lx, hp, hx, _, hv => by
    obtain ⟨_, hh, hl, _⟩ := hp
    simp only [List.head?_cons, Option.some.injEq] at hh
    simp only [List.getLast?_singleton, Option.some.injEq] at hl
    subst hh
    subst hl
    rw [hx] at hv
    exact Option.noConfusion hv
  | a :: b :: r, x, v, po, lx, hp, hx, hlx, hv => by
    obtain ⟨_, hh, hl, hc⟩ := hp
    simp only [List.head?_cons, Option.some.injEq] at hh
    obtain ⟨hab, hrest⟩ := List.chain'_cons.mp hc
    rw [List.getLast?_cons_cons] at hl
    have htail : IsPath adj b v (b :: r) := ⟨List.cons_ne_nil _ _, rfl, hl, hrest⟩
    rw [← hh] at hx ⊢
    obtain ⟨l0, hl0, hpath0, hnd0, hmem0, hopt0⟩ := hI.expPath _ po hx
    have heq : l0 = lx := Anc_det hl0 hlx
    rw [← heq] at hlx ⊢
    have hlast : (l0 ++ [a]).getLast? = some a := by simp
    obtain ⟨cw, hcwmem, hcwfst⟩ := List.mem_map.mp hab
    have hmem : (b, cw.2) ∈ adj a := by
      rw [← hcwfst]
      simpa using hcwmem
    have hcwe : cw.2 = w a b := hw a b cw.2 hmem
    have hcr : pathCost w (a :: b :: r) = w a b + pathCost w (b :: r) := rfl
    cases hb : alookup E b with
    | some pob =>
      obtain ⟨lb, hlb, hpathb, _, _, hoptb⟩ := hI.expPath _ pob hb
      obtain ⟨e', he', hbound⟩ :=
        inv_frontier hw hcons hI (b :: r) b v pob lb htail hb hlb hv
      refine ⟨e', he', ?_⟩
      have hext : IsPath adj s b ((l0 ++ [a]) ++ [b]) := path_append hpath0 hab
      have hcost : pathCost w ((l0 ++ [a]) ++ [b]) =
          pathCost w (l0 ++ [a]) + w a b := pathCost_append_last hlast
      have hble := hoptb _ hext
      rw [hcost] at hble
      rw [hcr]
      linarith
    | none =>
      rcases hI.edgeRel _ po hx b cw.2 hmem with ⟨po', hpo'⟩ | ⟨g, hh', hQ, hgb⟩
      · rw [hb] at hpo'
        exact Option.noConfusion hpo'
      · obtain ⟨e', he', hnode, hdist⟩ := hI.qsync b g hh' hQ hb
        refine ⟨e', he', ?_⟩
        have hgx := hgb l0 hlx
        rw [hcwe] at hgx
        have htel := heur_telescope hcons htail
        rw [hcr, hnode, hdist]
        linarith

/-- Every path from the source to an unexplored node is dominated by
some live entry (modulo the heuristic offsets). -/
theorem inv_cover {L : List Entry} {Q : List (ℕ × ℚ × ℚ)}
    {E : List (ℕ × Option ℕ)} {c : ℕ}
    (hw : ∀ u v cw, (v, cw) ∈ adj u → cw = w u v)
    (wnn : ∀ u v, Adj adj u v → 0 ≤ w u v)
    (hcons : ∀ u v, Adj adj u v → heur u ≤ w u v + heur v)
    (hI : Inv adj w heur s t L Q E c)
    (q : List ℕ) (v : ℕ) (hq : IsPath adj s v q) (hv : alookup E v = none) :
    ∃ e' ∈ L, e'.dist + heur e'.node ≤ pathCost w q + heur v := by
  cases hs : alookup E s with
  | none =>
    refine ⟨initEntry s, hI.sent hs, ?_⟩
    have htel := heur_telescope hcons hq
    show (0 : ℚ) + heur s ≤ _
    linarith
  | some po =>
    obtain ⟨ls, hls, hpaths, _, _, hopts⟩ := hI.expPath _ po hs
    have hzero : pathCost w (ls ++ [s]) = 0 := by
      have h1 := hopts [s] ⟨List.cons_ne_nil _ _, rfl, rfl, List.chain'_singleton s⟩
      have h2 : pathCost w ([s] : List ℕ) = 0 := rfl
      have h3 := pathCost_nonneg wnn hpaths
      rw [h2] at h1
      linarith
    obtain ⟨e', he', hbound⟩ :=
      inv_frontier hw hcons hI q s v po ls hq hs hls hv
    rw [hzero] at hbound
    refine ⟨e', he', by linarith⟩

theorem eraseFirst_sublist : ∀ (l : List Entry) (a : Entry),
    List.Sublist (eraseFirst l a) l
  | [], _ => List.Sublist.refl _
  | e :: rest, a => by
    unfold eraseFirst
    split_ifs with he
    · exact (List.Sublist.refl rest).cons e
    · exact (eraseFirst_sublist rest a).cons₂ e

theorem not_mem_eraseFirst_self : ∀ {l : List Entry} {a : Entry},
    l.Nodup → a ∉ eraseFirst l a
  | [], a, _ => by simp [eraseFirst]
  | e :: rest, a, h => by
    unfold eraseFirst
    split_ifs with he
    · subst he
      exact (List.nodup_cons.mp h).1
    · intro hmem
      rcases List.mem_cons.mp hmem with rfl | hmem'
      · exact he rfl
      · exact not_mem_eraseFirst_self (List.nodup_cons.mp h).2 hmem'

theorem alookup_ainsert_keep {α : Type} {E : List (ℕ × α)} {n : ℕ}
    {pn : α} (hfresh : alookup E n = none) :
    ∀ x po, alookup E x = some po → alookup (ainsert E n pn) x = some po := by
  intro x po hx
  rcases eq_or_ne x n with rfl | hne
  · rw [hfresh] at hx
    exact Option.noConfusion hx
  · rw [alookup_ainsert_ne _ _ hne]
    exact hx

theorem alookup_ainsert_none_of {α : Type} {E : List (ℕ × α)} {n x : ℕ}
    {pn : α} (h : alookup (ainsert E n pn) x = none) :
    alookup E x = none ∧ x ≠ n := by
  rcases eq_or_ne x n with rfl | hne
  · rw [alookup_ainsert_self] at h
    exact absurd h (by simp)
  · rw [alookup_ainsert_ne _ pn hne] at h
    exact ⟨h, hne⟩

/-- The source is explored as soon as anything is: every explored node's
optimal chain starts at `s`, and chain nodes are explored. -/
theorem s_explored {L : List Entry} {Q : List (ℕ × ℚ × ℚ)}
    {E : List (ℕ × Option ℕ)} {c : ℕ}
    (hB : InvB adj w heur s t L Q E c) {v : ℕ} {po : Option ℕ}
    (hv : alookup E v = some po) : ∃ po', alookup E s = some po' := by
  obtain ⟨l, _, hpath, _, hmem, _⟩ := hB.expPath v po hv
  cases l with
  | nil =>
    have hh := hpath.2.1
    simp only [List.nil_append, List.head?_cons, Option.some.injEq] at hh
    rw [← hh]
    exact ⟨po, hv⟩
  | cons a l' =>
    have hh := hpath.2.1
    simp only [List.cons_append, List.head?_cons, Option.some.injEq] at hh
    have hs : s ∈ a :: l' := by
      rw [← hh]
      exact List.mem_cons_self _ _
    exact hmem s hs

/-- When a not-yet-explored node is popped, its tentative distance is
optimal: the heart of A* with a consistent heuristic. -/
theorem pop_opt {L : List Entry} {Q : List (ℕ × ℚ × ℚ)}
    {E : List (ℕ × Option ℕ)} {c : ℕ} {e : Entry} {rest : List Entry}
    (hw : ∀ u v cw, (v, cw) ∈ adj u → cw = w u v)
    (wnn : ∀ u v, Adj adj u v → 0 ≤ w u v)
    (hcons : ∀ u v, Adj adj u v → heur u ≤ w u v + heur v)
    (hnn : ∀ v, 0 ≤ heur v)
    (hI : Inv adj w heur s t L Q E c)
    (hpop : popMin L = some (e, rest))
    (hfresh : alookup E e.node = none) :
    ∀ q, IsPath adj s e.node q → e.dist ≤ pathCost w q := by
  intro q hq
  obtain ⟨hmem, -, hmin⟩ := popMin_spec hpop
  obtain ⟨e', he', hb⟩ := inv_cover hw wnn hcons hI q e.node hq hfresh
  have hfe := (not_entryLt_iff e' e).mp (hmin e' he')
  rcases (hI.entries e hmem).1 with hfx | hinit
  · rcases (hI.entries e' he').1 with hfx' | hinit'
    · rcases hfe with h1 | ⟨h1, _⟩ <;> rw [hfx, hfx'] at h1 <;> linarith
    · subst hinit'
      have h0 : heur s ≤ pathCost w q + heur e.node := by
        simpa [initEntry] using hb
      have hf0 : e.f ≤ (initEntry s).f := by
        rcases hfe with h1 | ⟨h1, _⟩
        · exact le_of_lt h1
        · exact le_of_eq h1
      have hfz : (initEntry s).f = 0 := rfl
      rw [hfz, hfx] at hf0
      have hs0 := hnn s
      have hn0 := hnn e.node
      linarith
  · have hz : e.dist = 0 := by
      rw [hinit]
      rfl
    rw [hz]
    exact pathCost_nonneg wnn hq

/-- Popping a stale entry (already-explored node) preserves the
invariant. -/
theorem inv_skip {L : List Entry} {Q : List (ℕ × ℚ × ℚ)}
    {E : List (ℕ × Option ℕ)} {c : ℕ} {e : Entry} {rest : List Entry}
    (hI : Inv adj w heur s t L Q E c)
    (hpop : popMin L = some (e, rest)) {po : Option ℕ}
    (hexp : alookup E e.node = some po) :
    Inv adj w heur s t rest Q E c := by
  obtain ⟨hmem, hrest, hmin⟩ := popMin_spec hpop
  subst hrest
  have hsub : ∀ x ∈ eraseFirst L e, x ∈ L := fun x hx => eraseFirst_subset hx
  refine ⟨⟨hI.tgt, hI.sBind, hI.expPath, ?_, hI.qh, ?_, ?_, hI.qexp, ?_, ?_,
    ?_, ?_⟩, hI.edgeRel⟩
  · exact fun e' he' => hI.entries e' (hsub e' he')
  · exact fun e' he' hne => hI.qlb e' (hsub e' he') hne
  · intro v g hh hQ hE
    obtain ⟨ew, hwL, hwn, hwd⟩ := hI.qsync v g hh hQ hE
    have hne : ew ≠ e := by
      intro hcon
      rw [hcon] at hwn
      rw [hwn] at hexp
      rw [hexp] at hE
      exact Option.noConfusion hE
    exact ⟨ew, mem_eraseFirst_of_ne hwL hne, hwn, hwd⟩
  · intro hEs
    have hne : initEntry s ≠ e := by
      intro hcon
      have hns : e.node = s := by
        rw [← hcon]
        rfl
      rw [hns] at hexp
      rw [hexp] at hEs
      exact Option.noConfusion hEs
    exact mem_eraseFirst_of_ne (hI.sent hEs) hne
  · exact ⟨hI.hcnt.1, fun e' he' => hI.hcnt.2 e' (hsub e' he')⟩
  · exact List.Nodup.sublist (eraseFirst_sublist L e) hI.hnodup
  · exact fun e1 h1 e2 h2 => hI.ndist e1 (hsub e1 h1) e2 (hsub e2 h2)

/-- Marking a freshly popped node as explored preserves the bookkeeping
invariant and sets up the relaxation sweep. -/
theorem inv_mark {L : List Entry} {Q : List (ℕ × ℚ × ℚ)}
    {E : List (ℕ × Option ℕ)} {c : ℕ} {e : Entry} {rest : List Entry}
    (hw : ∀ u v cw, (v, cw) ∈ adj u → cw = w u v)
    (wnn : ∀ u v, Adj adj u v → 0 ≤ w u v)
    (hcons : ∀ u v, Adj adj u v → heur u ≤ w u v + heur v)
    (hnn : ∀ v, 0 ≤ heur v)
    (hI : Inv adj w heur s t L Q E c)
    (hpop : popMin L = some (e, rest))
    (hfresh : alookup E e.node = none)
    (hnt : e.node ≠ t) :
    InvB adj w heur s t rest Q (ainsert E e.node e.parent) c ∧
      EdgeCov adj w e.node (adj e.node) Q (ainsert E e.node e.parent) ∧
      alookup (ainsert E e.node e.parent) e.node = some e.parent ∧
      ∀ l, Anc (ainsert E e.node e.parent) e.parent l →
        pathCost w (l ++ [e.node]) = e.dist := by
  obtain ⟨hmem, hrest, hmin⟩ := popMin_spec hpop
  subst hrest
  obtain ⟨hf1, hcnt0, hpn, l_e, hAnc, hPath, hCost, hCExp, hNod⟩ :=
    hI.entries e hmem
  have hkeep := @alookup_ainsert_keep _ _ _ e.parent hfresh
  have hself : alookup (ainsert E e.node e.parent) e.node = some e.parent :=
    alookup_ainsert_self E e.node e.parent
  have hAnc' : Anc (ainsert E e.node e.parent) e.parent l_e :=
    Anc_mono hkeep hAnc
  have hdist : ∀ l, Anc (ainsert E e.node e.parent) e.parent l →
      pathCost w (l ++ [e.node]) = e.dist := by
    intro l hl
    rw [Anc_det hl hAnc']
    exact hCost
  have hopt := pop_opt hw wnn hcons hnn hI hpop hfresh
  refine ⟨⟨?_, ?_, ?_, ?_, hI.qh, ?_, ?_, ?_, ?_,
    ⟨hI.hcnt.1, fun e' he' => hI.hcnt.2 e' (eraseFirst_subset he')⟩,
    List.Nodup.sublist (eraseFirst_sublist L e) hI.hnodup,
    fun e1 h1 e2 h2 => hI.ndist e1 (eraseFirst_subset h1) e2
      (eraseFirst_subset h2)⟩, ?_, hself, hdist⟩
  · rw [alookup_ainsert_ne E e.parent (Ne.symm hnt)]
    exact hI.tgt
  · intro po' hpo'
    rcases eq_or_ne s e.node with hse | hse
    · rw [hse, hself] at hpo'
      obtain rfl := Option.some.inj hpo'
      cases hpe : e.parent with
      | none => rfl
      | some u =>
        rw [hpe] at hAnc
        cases hAnc with
        | cons u2 pu l2 hl ha2 =>
          obtain ⟨po2, hpo2⟩ := s_explored hI.toInvB hl
          rw [hse] at hpo2
          rw [hpo2] at hfresh
          exact Option.noConfusion hfresh
    · rw [alookup_ainsert_ne E e.parent hse] at hpo'
      exact hI.sBind po' hpo'
  · intro v po' hpo'
    rcases eq_or_ne v e.node with rfl | hvn
    · rw [hself] at hpo'
      obtain rfl := Option.some.inj hpo'
      refine ⟨l_e, hAnc', hPath, hNod hfresh, ?_, ?_⟩
      · intro x hx
        obtain ⟨px, hpx⟩ := hCExp x hx
        exact ⟨px, hkeep x px hpx⟩
      · intro q hq
        rw [hCost]
        exact hopt q hq
    · rw [alookup_ainsert_ne E e.parent hvn] at hpo'
      obtain ⟨l0, hA0, hP0, hN0, hC0, hO0⟩ := hI.expPath v po' hpo'
      refine ⟨l0, Anc_mono hkeep hA0, hP0, hN0, ?_, hO0⟩
      intro x hx
      obtain ⟨px, hpx⟩ := hC0 x hx
      exact ⟨px, hkeep x px hpx⟩
  · intro e' he'
    obtain ⟨h1, h2, h3, l', hA', hP', hC', hCE', hN'⟩ :=
      hI.entries e' (eraseFirst_subset he')
    refine ⟨h1, h2, h3, l', Anc_mono hkeep hA', hP', hC', ?_, ?_⟩
    · intro x hx
      obtain ⟨px, hpx⟩ := hCE' x hx
      exact ⟨px, hkeep x px hpx⟩
    · intro hn'
      exact hN' (alookup_ainsert_none_of hn').1
  · intro e' he' hns
    obtain ⟨g, hh, hQ, hle, hstrict⟩ := hI.qlb e' (eraseFirst_subset he') hns
    refine ⟨g, hh, hQ, hle, ?_⟩
    rcases eq_or_ne e'.node e.node with hnn2 | hnn2
    · intro _
      rcases lt_or_eq_of_le hle with hlt | heqd
      · exact hlt
      · exfalso
        have hens : e.node ≠ s := by
          rw [← hnn2]
          exact hns
        obtain ⟨g2, hh2, hQ2, hle2, -⟩ := hI.qlb e hmem hens
        rw [hnn2] at hQ
        rw [hQ] at hQ2
        simp only [Option.some.injEq, Prod.mk.injEq] at hQ2
        obtain ⟨hg, -⟩ := hQ2
        have hmin' := (not_entryLt_iff e' e).mp
          (hmin e' (eraseFirst_subset he'))
        have hfe : e.f = e.dist + heur e.node := by
          rcases hf1 with h | h
          · exact h
          · exfalso
            have hx : e.node = s := by
              rw [h]
              rfl
            exact hens hx
        have hfe' : e'.f = e'.dist + heur e'.node := by
          rcases (hI.entries e' (eraseFirst_subset he')).1 with h | h
          · exact h
          · exfalso
            have hx : e'.node = s := by
              rw [h]
              rfl
            exact hns hx
        have hdd : e.dist ≤ e'.dist := by
          rcases hmin' with h | ⟨h, -⟩
          · rw [hfe, hfe', hnn2] at h
            linarith
          · rw [hfe, hfe', hnn2] at h
            linarith
        have hgd : g ≤ e.dist := by
          rw [hg]
          exact hle2
        have hdeq : e.dist = e'.dist := by linarith
        have heq2 := hI.ndist e hmem e' (eraseFirst_subset he')
          hnn2.symm hens hdeq
        rw [← heq2] at he'
        exact not_mem_eraseFirst_self hI.hnodup he'
    · intro hpo'
      obtain ⟨po2, hpo2⟩ := hpo'
      rw [alookup_ainsert_ne E e.parent hnn2] at hpo2
      exact hstrict ⟨po2, hpo2⟩
  · intro v g hh hQ hE'
    obtain ⟨hEv, hvn⟩ := alookup_ainsert_none_of hE'
    obtain ⟨ew, hwL, hwn, hwd⟩ := hI.qsync v g hh hQ hEv
    have hne : ew ≠ e := by
      intro hcon
      rw [hcon] at hwn
      exact hvn hwn.symm
    exact ⟨ew, mem_eraseFirst_of_ne hwL hne, hwn, hwd⟩
  · intro v po' hpo' hvs
    rcases eq_or_ne v e.node with rfl | hvn
    · obtain ⟨g, hh, hQ, hle, -⟩ := hI.qlb e hmem hvs
      refine ⟨g, hh, hQ, ?_⟩
      intro q hq
      exact le_trans hle (hopt q hq)
    · rw [alookup_ainsert_ne E e.parent hvn] at hpo'
      exact hI.qexp v po' hpo' hvs
  · intro hE's
    obtain ⟨hEs, hsn⟩ := alookup_ainsert_none_of hE's
    have hne : initEntry s ≠ e := by
      intro hcon
      have hns2 : e.node = s := by
        rw [← hcon]
        rfl
      exact hsn hns2.symm
    exact mem_eraseFirst_of_ne (hI.sent hEs) hne
  · intro v po' hpo' nb cw hedge
    rcases eq_or_ne v e.node with rfl | hvn
    · exact Or.inl ⟨rfl, hedge⟩
    · rw [alookup_ainsert_ne E e.parent hvn] at hpo'
      rcases hI.edgeRel v po' hpo' nb cw hedge with
        ⟨po2, hpo2⟩ | ⟨g, hh, hQ, hb⟩
      · exact Or.inr (Or.inl ⟨po2, hkeep nb po2 hpo2⟩)
      · refine Or.inr (Or.inr ⟨g, hh, hQ, ?_⟩)
        intro l hl
        obtain ⟨l0, hA0, -, -, -, -⟩ := hI.expPath v po' hpo'
        have hA0' : Anc (ainsert E e.node e.parent) po' l0 :=
          Anc_mono hkeep hA0
        rw [Anc_det hl hA0']
        exact hb l0 hA0

theorem relax_cons_skip {heur : ℕ → ℚ} {dist : ℚ} {cur nb : ℕ} {cw : ℚ}
    {rest' : List (ℕ × ℚ)} {st : State} {qc hh : ℚ}
    (hQ : alookup st.enqueued nb = some (qc, hh)) (hle : qc ≤ dist + cw) :
    relax heur dist cur ((nb, cw) :: rest') st =
      relax heur dist cur rest' st := by
  simp only [relax, hQ]
  rw [if_pos hle]

theorem relax_cons_push_some {heur : ℕ → ℚ} {dist : ℚ} {cur nb : ℕ} {cw : ℚ}
    {rest' : List (ℕ × ℚ)} {st : State} {qc hh : ℚ}
    (hQ : alookup st.enqueued nb = some (qc, hh)) (hlt : ¬ qc ≤ dist + cw) :
    relax heur dist cur ((nb, cw) :: rest') st =
      relax heur dist cur rest'
        { queue := st.queue ++
            [⟨dist + cw + hh, st.counter, nb, dist + cw, some cur⟩],
          enqueued := ainsert st.enqueued nb (dist + cw, hh),
          explored := st.explored,
          counter := st.counter + 1 } := by
  simp only [relax, hQ]
  rw [if_neg hlt]

theorem relax_cons_push_none {heur : ℕ → ℚ} {dist : ℚ} {cur nb : ℕ} {cw : ℚ}
    {rest' : List (ℕ × ℚ)} {st : State}
    (hQ : alookup st.enqueued nb = none) :
    relax heur dist cur ((nb, cw) :: rest') st =
      relax heur dist cur rest'
        { queue := st.queue ++
            [⟨dist + cw + heur nb, st.counter, nb, dist + cw, some cur⟩],
          enqueued := ainsert st.enqueued nb (dist + cw, heur nb),
          explored := st.explored,
          counter := st.counter + 1 } := by
  simp only [relax, hQ]

theorem skip_edgecov {Q : List (ℕ × ℚ × ℚ)} {E : List (ℕ × Option ℕ)}
    {cur : ℕ} {pe : Option ℕ} {dist : ℚ} {nb : ℕ} {cw qc hh : ℚ}
    {rest' : List (ℕ × ℚ)}
    (hpe : alookup E cur = some pe)
    (hdist : ∀ l, Anc E pe l → pathCost w (l ++ [cur]) = dist)
    (hQg : alookup Q nb = some (qc, hh))
    (hle : qc ≤ dist + cw)
    (hcov : EdgeCov adj w cur ((nb, cw) :: rest') Q E) :
    EdgeCov adj w cur rest' Q E := by
  intro v po hpo nb' cw' hedge
  rcases hcov v po hpo nb' cw' hedge with ⟨hvc, hmem'⟩ | hdone
  · rcases List.mem_cons.mp hmem' with heq | hmem''
    · subst hvc
      rw [Prod.mk.injEq] at heq
      obtain ⟨rfl, rfl⟩ := heq
      refine Or.inr (Or.inr ⟨qc, hh, hQg, ?_⟩)
      intro l hl
      have hpe2 := hpe
      rw [hpo] at hpe2
      obtain rfl := Option.some.inj hpe2
      have h3 := hdist l hl
      linarith
    · exact Or.inl ⟨hvc, hmem''⟩
  · exact Or.inr hdone

theorem push_edgecov {Q : List (ℕ × ℚ × ℚ)} {E : List (ℕ × Option ℕ)}
    {cur : ℕ} {pe : Option ℕ} {dist : ℚ} {nb : ℕ} {cw hv : ℚ}
    {rest' : List (ℕ × ℚ)}
    (hpe : alookup E cur = some pe)
    (hdist : ∀ l, Anc E pe l → pathCost w (l ++ [cur]) = dist)
    (hQlt : ∀ g hh, alookup Q nb = some (g, hh) → dist + cw < g)
    (hcov : EdgeCov adj w cur ((nb, cw) :: rest') Q E) :
    EdgeCov adj w cur rest' (ainsert Q nb (dist + cw, hv)) E := by
  intro v po hpo nb' cw' hedge
  rcases hcov v po hpo nb' cw' hedge with
    ⟨hvc, hmem'⟩ | ⟨po2, hpo2⟩ | ⟨g, hh, hQg, hb⟩
  · rcases List.mem_cons.mp hmem' with heq | hmem''
    · subst hvc
      rw [Prod.mk.injEq] at heq
      obtain ⟨rfl, rfl⟩ := heq
      refine Or.inr (Or.inr ⟨dist + cw', hv, alookup_ainsert_self _ _ _, ?_⟩)
      intro l hl
      have hpe2 := hpe
      rw [hpo] at hpe2
      obtain rfl := Option.some.inj hpe2
      have h3 := hdist l hl
      linarith
    · exact Or.inl ⟨hvc, hmem''⟩
  · exact Or.inr (Or.inl ⟨po2, hpo2⟩)
  · rcases eq_or_ne nb' nb with rfl | hne
    · refine Or.inr (Or.inr ⟨dist + cw, hv, alookup_ainsert_self _ _ _, ?_⟩)
      intro l hl
      have h1 := hb l hl
      have h2 := hQlt g hh hQg
      linarith
    · refine Or.inr (Or.inr ⟨g, hh, ?_, hb⟩)
      rw [alookup_ainsert_ne _ _ hne]
      exact hQg

/-- Pushing one improving neighbor entry preserves the bookkeeping
invariant. -/
theorem push_invB {Q : List (ℕ × ℚ × ℚ)} {E : List (ℕ × Option ℕ)}
    {Lq : List Entry} {c : ℕ} {cur : ℕ} {pe : Option ℕ} {dist : ℚ}
    {nb : ℕ} {cw hv : ℚ}
    (hw : ∀ u v cw, (v, cw) ∈ adj u → cw = w u v)
    (wnn : ∀ u v, Adj adj u v → 0 ≤ w u v)
    (hmem : (nb, cw) ∈ adj cur)
    (hpe : alookup E cur = some pe)
    (hdist : ∀ l, Anc E pe l → pathCost w (l ++ [cur]) = dist)
    (hB : InvB adj w heur s t Lq Q E c)
    (hhv : hv = heur nb)
    (hQlt : ∀ g hh, alookup Q nb = some (g, hh) → dist + cw < g) :
    InvB adj w heur s t
      (Lq ++ [⟨dist + cw + hv, c, nb, dist + cw, some cur⟩])
      (ainsert Q nb (dist + cw, hv)) E (c + 1) := by
  obtain ⟨lc, hAc, hPc, hNc, hCEc, -⟩ := hB.expPath cur pe hpe
  have hcostc : pathCost w (lc ++ [cur]) = dist := hdist lc hAc
  have hAdj : Adj adj cur nb := List.mem_map.mpr ⟨(nb, cw), hmem, rfl⟩
  have hcw : cw = w cur nb := hw cur nb cw hmem
  have hAncnb : Anc E (some cur) (lc ++ [cur]) := Anc.cons cur pe lc hpe hAc
  have hPathnb : IsPath adj s nb ((lc ++ [cur]) ++ [nb]) :=
    path_append hPc hAdj
  have hlastc : (lc ++ [cur]).getLast? = some cur := by simp
  have hCostnb : pathCost w ((lc ++ [cur]) ++ [nb]) = dist + cw := by
    rw [pathCost_append_last hlastc, hcostc, hcw]
  have hnbexp : (∃ po', alookup E nb = some po') → nb ≠ s → False := by
    rintro ⟨po', hpo'⟩ hnbs
    obtain ⟨g, hh, hQg, hbound⟩ := hB.qexp nb po' hpo' hnbs
    have h1 := hbound _ hPathnb
    rw [hCostnb] at h1
    exact absurd h1 (not_le.mpr (hQlt g hh hQg))
  refine ⟨hB.tgt, hB.sBind, hB.expPath, ?_, ?_, ?_, ?_, ?_, ?_, ?_, ?_, ?_⟩
  · intro e' he'
    rcases List.mem_append.mp he' with hL | hnew
    · exact hB.entries e' hL
    · rw [List.mem_singleton] at hnew
      subst hnew
      refine ⟨Or.inl ?_, ?_, ?_, lc ++ [cur], hAncnb, hPathnb, hCostnb,
        ?_, ?_⟩
      · rw [hhv]
      · intro hc0
        exfalso
        have hc0' : c = 0 := hc0
        have h1c := hB.hcnt.1
        omega
      · intro hpn
        exact Option.noConfusion hpn
      · intro x hx
        rcases List.mem_append.mp hx with hx' | hx'
        · exact hCEc x hx'
        · rw [List.mem_singleton] at hx'
          subst hx'
          exact ⟨pe, hpe⟩
      · intro hnbE
        have hnotin : nb ∉ lc ++ [cur] := by
          intro hin
          rcases List.mem_append.mp hin with hin' | hin'
          · obtain ⟨px, hpx⟩ := hCEc nb hin'
            rw [hpx] at hnbE
            exact Option.noConfusion hnbE
          · rw [List.mem_singleton] at hin'
            subst hin'
            rw [hpe] at hnbE
            exact Option.noConfusion hnbE
        refine List.Nodup.append hNc (List.nodup_singleton nb) ?_
        intro a ha hb2
        rw [List.mem_singleton] at hb2
        subst hb2
        exact hnotin ha
  · intro v g hh hQv
    rcases eq_or_ne v nb with rfl | hvnb
    · rw [alookup_ainsert_self] at hQv
      simp only [Option.some.injEq, Prod.mk.injEq] at hQv
      obtain ⟨-, h2⟩ := hQv
      rw [← h2]
      exact hhv
    · rw [alookup_ainsert_ne _ _ hvnb] at hQv
      exact hB.qh v g hh hQv
  · intro e' he' hns
    rcases List.mem_append.mp he' with hL | hnew
    · obtain ⟨g, hh, hQg, hle, hstrict⟩ := hB.qlb e' hL hns
      rcases eq_or_ne e'.node nb with hen | hen
      · rw [hen] at hQg ⊢
        have hlt := hQlt g hh hQg
        refine ⟨dist + cw, hv, alookup_ainsert_self _ _ _, ?_, ?_⟩
        · linarith
        · intro _
          linarith
      · refine ⟨g, hh, ?_, hle, hstrict⟩
        rw [alookup_ainsert_ne _ _ hen]
        exact hQg
    · rw [List.mem_singleton] at hnew
      subst hnew
      refine ⟨dist + cw, hv, alookup_ainsert_self _ _ _, le_refl _, ?_⟩
      intro hexp'
      exact absurd (hnbexp hexp' hns) id
  · intro v g hh hQv hEv
    rcases eq_or_ne v nb with rfl | hvnb
    · refine ⟨⟨dist + cw + hv, c, v, dist + cw, some cur⟩,
        List.mem_append_right _ (List.mem_singleton_self _), rfl, ?_⟩
      rw [alookup_ainsert_self] at hQv
      simp only [Option.some.injEq, Prod.mk.injEq] at hQv
      exact hQv.1
    · rw [alookup_ainsert_ne _ _ hvnb] at hQv
      obtain ⟨ew, hwL, hwn, hwd⟩ := hB.qsync v g hh hQv hEv
      exact ⟨ew, List.mem_append_left _ hwL, hwn, hwd⟩
  · intro v po' hpo' hvs
    rcases eq_or_ne v nb with rfl | hvnb
    · exact absurd (hnbexp ⟨po', hpo'⟩ hvs) id
    · obtain ⟨g, hh, hQg, hb⟩ := hB.qexp v po' hpo' hvs
      refine ⟨g, hh, ?_, hb⟩
      rw [alookup_ainsert_ne _ _ hvnb]
      exact hQg
  · intro hEs
    exact List.mem_append_left _ (hB.sent hEs)
  · refine ⟨le_trans hB.hcnt.1 (Nat.le_succ c), ?_⟩
    intro e' he'
    rcases List.mem_append.mp he' with hL | hnew
    · exact Nat.lt_succ_of_lt (hB.hcnt.2 e' hL)
    · rw [List.mem_singleton] at hnew
      subst hnew
      exact Nat.lt_succ_self c
  · refine List.Nodup.append hB.hnodup (List.nodup_singleton _) ?_
    intro a ha hb2
    rw [List.mem_singleton] at hb2
    subst hb2
    have hcl := hB.hcnt.2 _ ha
    exact lt_irrefl c hcl
  · intro e1 h1 e2 h2 hnodes hnots hdists
    rcases List.mem_append.mp h1 with hL1 | hN1 <;>
      rcases List.mem_append.mp h2 with hL2 | hN2
    · exact hB.ndist e1 hL1 e2 hL2 hnodes hnots hdists
    · rw [List.mem_singleton] at hN2
      subst hN2
      exfalso
      obtain ⟨g, hh, hQg, hle, -⟩ := hB.qlb e1 hL1 hnots
      rw [hnodes] at hQg
      have hlt := hQlt g hh hQg
      rw [hdists] at hle
      have hle2 : g ≤ dist + cw := hle
      linarith
    · rw [List.mem_singleton] at hN1
      subst hN1
      exfalso
      have hns2 : e2.node ≠ s := by
        rw [← hnodes]
        exact hnots
      obtain ⟨g, hh, hQg, hle, -⟩ := hB.qlb e2 hL2 hns2
      rw [← hnodes] at hQg
      have hlt := hQlt g hh hQg
      rw [← hdists] at hle
      have hle2 : g ≤ dist + cw := hle
      linarith
    · rw [List.mem_singleton] at hN1 hN2
      rw [hN1, hN2]

/-- Sweeping the neighbor list preserves the bookkeeping invariant and
completes the edge coverage. -/
theorem relax_inv
    (hw : ∀ u v cw, (v, cw) ∈ adj u → cw = w u v)
    (wnn : ∀ u v, Adj adj u v → 0 ≤ w u v)
    {cur : ℕ} {pe : Option ℕ} {dist : ℚ} :
    ∀ (todo : List (ℕ × ℚ)) (st : State),
      (∀ pr ∈ todo, pr ∈ adj cur) →
      alookup st.explored cur = some pe →
      (∀ l, Anc st.explored pe l → pathCost w (l ++ [cur]) = dist) →
      InvB adj w heur s t st.queue st.enqueued st.explored st.counter →
      EdgeCov adj w cur todo st.enqueued st.explored →
      Inv adj w heur s t (relax heur dist cur todo st).queue
        (relax heur dist cur todo st).enqueued
        (relax heur dist cur todo st).explored
        (relax heur dist cur todo st).counter
  | [], st, _, _, _, hB, hcov => by
    refine ⟨hB, ?_⟩
    intro v po hpo nb cw hedge
    rcases hcov v po hpo nb cw hedge with ⟨-, hmem'⟩ | hdone
    · exact absurd hmem' (List.not_mem_nil _)
    · exact hdone
  | (nb, cw) :: rest', st, hadj, hpe, hdist, hB, hcov => by
    have hmem : (nb, cw) ∈ adj cur := hadj _ (List.mem_cons_self _ _)
    have hadj' : ∀ pr ∈ rest', pr ∈ adj cur :=
      fun pr hp => hadj pr (List.mem_cons_of_mem _ hp)
    cases hQ : alookup st.enqueued nb with
    | some pr =>
      obtain ⟨qc, hh⟩ := pr
      by_cases hle : qc ≤ dist + cw
      · rw [relax_cons_skip hQ hle]
        exact relax_inv hw wnn rest' st hadj' hpe hdist hB
          (skip_edgecov hpe hdist hQ hle hcov)
      · rw [relax_cons_push_some hQ hle]
        have hhv : hh = heur nb := hB.qh nb qc hh hQ
        have hQlt : ∀ g hh2, alookup st.enqueued nb = some (g, hh2) →
            dist + cw < g := by
          intro g hh2 hg
          rw [hQ] at hg
          simp only [Option.some.injEq, Prod.mk.injEq] at hg
          obtain ⟨rfl, -⟩ := hg
          exact lt_of_not_le hle
        exact relax_inv hw wnn rest' _ hadj' hpe hdist
          (push_invB hw wnn hmem hpe hdist hB hhv hQlt)
          (push_edgecov hpe hdist hQlt hcov)
    | none =>
      rw [relax_cons_push_none hQ]
      have hQlt : ∀ g hh2, alookup st.enqueued nb = some (g, hh2) →
          dist + cw < g := by
        intro g hh2 hg
        rw [hQ] at hg
        exact Option.noConfusion hg
      exact relax_inv hw wnn rest' _ hadj' hpe hdist
        (push_invB hw wnn hmem hpe hdist hB rfl hQlt)
        (push_edgecov hpe hdist hQlt hcov)

/-- Exploring a freshly popped non-target node preserves the invariant. -/
theorem inv_explore {L : List Entry} {Q : List (ℕ × ℚ × ℚ)}
    {E : List (ℕ × Option ℕ)} {c : ℕ} {e : Entry} {rest : List Entry}
    (hw : ∀ u v cw, (v, cw) ∈ adj u → cw = w u v)
    (wnn : ∀ u v, Adj adj u v → 0 ≤ w u v)
    (hcons : ∀ u v, Adj adj u v → heur u ≤ w u v + heur v)
    (hnn : ∀ v, 0 ≤ heur v)
    (hI : Inv adj w heur s t L Q E c)
    (hpop : popMin L = some (e, rest))
    (hfresh : alookup E e.node = none)
    (hnt : e.node ≠ t) :
    Inv adj w heur s t
      (relax heur e.dist e.node (adj e.node)
        ⟨rest, Q, ainsert E e.node e.parent, c⟩).queue
      (relax heur e.dist e.node (adj e.node)
        ⟨rest, Q, ainsert E e.node e.parent, c⟩).enqueued
      (relax heur e.dist e.node (adj e.node)
        ⟨rest, Q, ainsert E e.node e.parent, c⟩).explored
      (relax heur e.dist e.node (adj e.node)
        ⟨rest, Q, ainsert E e.node e.parent, c⟩).counter := by
  obtain ⟨hB, hcov, hself, hdist⟩ :=
    inv_mark hw wnn hcons hnn hI hpop hfresh hnt
  exact relax_inv hw wnn (adj e.node)
    ⟨rest, Q, ainsert E e.node e.parent, c⟩
    (fun pr hp => hp) hself hdist hB hcov

/-- The invariant holds at the initial state of the search. -/
theorem inv_init : Inv adj w heur s t [initEntry s] [] [] 1 := by
  refine ⟨⟨rfl, ?_, ?_, ?_, ?_, ?_, ?_, ?_, ?_, ?_, ?_, ?_⟩, ?_⟩
  · intro po h
    simp [alookup] at h
  · intro v po h
    simp [alookup] at h
  · intro e' he'
    rw [List.mem_singleton] at he'
    subst he'
    refine ⟨Or.inr rfl, fun _ => rfl, fun _ => rfl, [], Anc.nil,
      ⟨List.cons_ne_nil _ _, rfl, rfl, List.chain'_singleton _⟩, rfl,
      ?_, ?_⟩
    · intro x hx
      exact absurd hx (List.not_mem_nil x)
    · intro _
      exact List.nodup_singleton _
  · intro v g hh h
    simp [alookup] at h
  · intro e' he' hne
    rw [List.mem_singleton] at he'
    subst he'
    exact absurd rfl hne
  · intro v g hh h
    simp [alookup] at h
  · intro v po h
    simp [alookup] at h
  · intro _
    exact List.mem_singleton_self _
  · refine ⟨le_refl 1, ?_⟩
    intro e' he'
    rw [List.mem_singleton] at he'
    subst he'
    exact Nat.zero_lt_one
  · exact List.nodup_singleton _
  · intro e1 h1 e2 h2 _ _ _
    rw [List.mem_singleton] at h1 h2
    rw [h1, h2]
  · intro v po h
    simp [alookup] at h

/-- Partial correctness of the search loop: an `ok` result is a
duplicate-free optimal path from source to target. -/
theorem loop_sound
    (hw : ∀ u v cw, (v, cw) ∈ adj u → cw = w u v)
    (wnn : ∀ u v, Adj adj u v → 0 ≤ w u v)
    (hcons : ∀ u v, Adj adj u v → heur u ≤ w u v + heur v)
    (hnn : ∀ v, 0 ≤ heur v) :
    ∀ (fuel : ℕ) (st : State) (p : List ℕ),
      Inv adj w heur s t st.queue st.enqueued st.explored st.counter →
      loop adj t heur fuel st = .ok p →
      IsPath adj s t p ∧ p.Nodup ∧
        ∀ q, IsPath adj s t q → pathCost w p ≤ pathCost w q
  | 0, st, p, _, hrun => by
    simp only [loop] at hrun
    exact Except.noConfusion hrun
  | fuel + 1, st, p, hI, hrun => by
    unfold loop at hrun
    cases hpop : popMin st.queue with
    | none =>
      rw [hpop] at hrun
      exact Except.noConfusion hrun
    | some pr =>
      obtain ⟨e, rest⟩ := pr
      simp only [hpop] at hrun
      by_cases ht : e.node = t
      · rw [if_pos ht] at hrun
        cases hrec : reconstruct st.explored e.node e.parent with
        | none =>
          simp only [hrec] at hrun
          exact Except.noConfusion hrun
        | some p' =>
          simp only [hrec] at hrun
          obtain rfl : p' = p := Except.ok.inj hrun
          obtain ⟨l, hAl, rfl⟩ := reconstruct_sound hrec
          obtain ⟨hmem, -, -⟩ := popMin_spec hpop
          obtain ⟨-, -, -, l_e, hAnc, hPath, hCost, -, hNod⟩ :=
            hI.entries e hmem
          have hll : l = l_e := Anc_det hAl hAnc
          subst hll
          have hfresh : alookup st.explored e.node = none := by
            rw [ht]
            exact hI.tgt
          refine ⟨?_, hNod hfresh, ?_⟩
          · rw [← ht]
            exact hPath
          · intro q hq
            have hq' : IsPath adj s e.node q := by
              rw [ht]
              exact hq
            have hopt := pop_opt hw wnn hcons hnn hI hpop hfresh q hq'
            rw [hCost]
            exact hopt
      · rw [if_neg ht] at hrun
        cases hexp : alookup st.explored e.node with
        | some po =>
          simp only [hexp] at hrun
          by_cases hpo : po = none
          · rw [if_pos hpo] at hrun
            exact loop_sound hw wnn hcons hnn fuel
              { st with queue := rest } p (inv_skip hI hpop hexp) hrun
          · rw [if_neg hpo] at hrun
            have hns : e.node ≠ s := by
              intro hes
              rw [hes] at hexp
              exact hpo (hI.sBind po hexp)
            obtain ⟨g, hh, hQ, hle, hstrict⟩ := hI.qlb e
              (popMin_spec hpop).1 hns
            simp only [hQ] at hrun
            rw [if_pos (hstrict ⟨po, hexp⟩)] at hrun
            exact loop_sound hw wnn hcons hnn fuel
              { st with queue := rest } p (inv_skip hI hpop hexp) hrun
        | none =>
          simp only [hexp] at hrun
          exact loop_sound hw wnn hcons hnn fuel
            (relax heur e.dist e.node (adj e.node)
              { st with queue := rest,
                        explored := ainsert st.explored e.node e.parent }) p
            (inv_explore hw wnn hcons hnn hI hpop hexp ht) hrun

/-- Partial correctness of `astar_path`: with faithful stored costs and
a nonnegative consistent heuristic, an `ok` result is a duplicate-free
path from source to target of minimal total cost. -/
theorem astar_path_sound {gnodes : List ℕ} {fuel : ℕ} {p : List ℕ}
    (hw : ∀ u v cw, (v, cw) ∈ adj u → cw = w u v)
    (wnn : ∀ u v, Adj adj u v → 0 ≤ w u v)
    (hcons : ∀ u v, Adj adj u v → heur u ≤ w u v + heur v)
    (hnn : ∀ v, 0 ≤ heur v)
    (h : astar_path adj gnodes s t heur fuel = .ok p) :
    IsPath adj s t p ∧ p.Nodup ∧
      ∀ q, IsPath adj s t q → pathCost w p ≤ pathCost w q := by
  unfold astar_path at h
  split_ifs at h with hmem
  exact loop_sound hw wnn hcons hnn fuel ⟨[initEntry s], [], [], 1⟩ p
    inv_init h

end AStarProof

end NX

/-! ## Claim C2 -/

namespace BathymetryRouter

/-- `compute_edge_weight` is symmetric when the metric is. -/
theorem compute_edge_weight_symm (hav : Coord → Coord → ℚ)
    (r : BathymetryRouter) (a b : Coord) (useB : Bool)
    (hsymm : hav a b = hav b a) :
    compute_edge_weight hav r a b useB =
      compute_edge_weight hav r b a useB := by
  simp only [compute_edge_weight]
  rw [hsymm, add_comm (get_depth r a.2 a.1) (get_depth r b.2 b.1)]

theorem compute_edge_weight_nonneg (hav : Coord → Coord → ℚ)
    (hnn : ∀ a b, 0 ≤ hav a b) (r : BathymetryRouter) (a b : Coord)
    (useB : Bool) : 0 ≤ compute_edge_weight hav r a b useB :=
  le_trans (hnn a b) (compute_edge_weight_ge hav hnn r a b useB)

/-- Stored weights in `build_graph`'s adjacency view agree with the
symmetric edge-weight function on node indices. -/
theorem adjOf_build_weight {hav : Coord → Coord → ℚ} {r : BathymetryRouter}
    {nodes : List Coord} {useB : Bool}
    (hsymm : ∀ a b, hav a b = hav b a) :
    ∀ u v cw, (v, cw) ∈ adjOf EdgeData.weight
        (build_graph hav r nodes useB) u →
      cw = compute_edge_weight hav r (nodes.getD u (0, 0))
        (nodes.getD v (0, 0)) useB := by
  intro u v cw hmem
  unfold adjOf at hmem
  simp only [List.mem_filterMap] at hmem
  obtain ⟨e, heG, hcond⟩ := hmem
  obtain ⟨-, -, -, hd⟩ := build_graph_mem heG
  split_ifs at hcond with h1 h2
  · simp only [Option.some.injEq, Prod.mk.injEq] at hcond
    obtain ⟨h3, h4⟩ := hcond
    rw [← h4, hd, ← h1, ← h3]
  · simp only [Option.some.injEq, Prod.mk.injEq] at hcond
    obtain ⟨h3, h4⟩ := hcond
    rw [← h4, hd, ← h2, ← h3]
    exact compute_edge_weight_symm hav r _ _ useB (hsymm _ _)

/-- The great-circle heuristic is consistent for `build_graph` weights:
the edge weight dominates the great-circle distance, which satisfies the
triangle inequality. -/
theorem bathy_heur_consistent {hav : Coord → Coord → ℚ}
    {r : BathymetryRouter} {nodes : List Coord} {useB : Bool} (tIdx : ℕ)
    (hnn : ∀ a b, 0 ≤ hav a b)
    (htri : ∀ a b c, hav a c ≤ hav a b + hav b c) :
    ∀ u v : ℕ,
      bathy_heur hav nodes tIdx u ≤
        compute_edge_weight hav r (nodes.getD u (0, 0))
          (nodes.getD v (0, 0)) useB +
        bathy_heur hav nodes tIdx v := by
  intro u v
  unfold bathy_heur
  have h1 := htri (nodes.getD u (0, 0)) (nodes.getD v (0, 0))
    (nodes.getD tIdx (0, 0))
  have h2 := compute_edge_weight_ge hav hnn r (nodes.getD u (0, 0))
    (nodes.getD v (0, 0)) useB
  linarith

end BathymetryRouter

/-- **C2** (amended): for the bathymetry router the great-circle
heuristic is consistent — every edge weight is at least the great-circle
distance — so a path returned by its A* call is a duplicate-free path
from the chosen start node to the chosen end node whose total weight is
minimal among all paths between them in the constructed graph.  (For the
simple optimizer's graphs the same heuristic overestimates the
`0.4633`-scaled weights and the returned route can be suboptimal: see
the counterexample.) -/
theorem C2_bathy_astar_optimal (hav : Coord → Coord → ℚ)
    (r : BathymetryRouter) (sc ec : Coord) (ub : Bool) (fuel : ℕ)
    (p : List ℕ)
    (hnn : ∀ a b, 0 ≤ hav a b)
    (hsymm : ∀ a b, hav a b = hav b a)
    (htri : ∀ a b c, hav a c ≤ hav a b + hav b c)
    (hok : BathymetryRouter.bathy_astar hav r sc ec ub fuel = .ok p) :
    IsPath
      (adjOf BathymetryRouter.EdgeData.weight
        (BathymetryRouter.build_graph hav r
          (BathymetryRouter.generate_water_grid r sc ec) ub))
      (BathymetryRouter.find_nearest_node hav sc
        (BathymetryRouter.generate_water_grid r sc ec))
      (BathymetryRouter.find_nearest_node hav ec
        (BathymetryRouter.generate_water_grid r sc ec)) p ∧
    p.Nodup ∧
    ∀ q, IsPath
        (adjOf BathymetryRouter.EdgeData.weight
          (BathymetryRouter.build_graph hav r
            (BathymetryRouter.generate_water_grid r sc ec) ub))
        (BathymetryRouter.find_nearest_node hav sc
          (BathymetryRouter.generate_water_grid r sc ec))
        (BathymetryRouter.find_nearest_node hav ec
          (BathymetryRouter.generate_water_grid r sc ec)) q →
      pathCost (fun u v => BathymetryRouter.compute_edge_weight hav r
          ((BathymetryRouter.generate_water_grid r sc ec).getD u (0, 0))
          ((BathymetryRouter.generate_water_grid r sc ec).getD v (0, 0)) ub)
        p ≤
      pathCost (fun u v => BathymetryRouter.compute_edge_weight hav r
          ((BathymetryRouter.generate_water_grid r sc ec).getD u (0, 0))
          ((BathymetryRouter.generate_water_grid r sc ec).getD v (0, 0)) ub)
        q := by
  simp only [BathymetryRouter.bathy_astar] at hok
  exact NX.astar_path_sound
    (BathymetryRouter.adjOf_build_weight hsymm)
    (fun u v _ => BathymetryRouter.compute_edge_weight_nonneg hav hnn r _ _ ub)
    (fun u v _ => BathymetryRouter.bathy_heur_consistent
      (BathymetryRouter.find_nearest_node hav ec
        (BathymetryRouter.generate_water_grid r sc ec)) hnn htri u v)
    (fun v => hnn _ _)
    hok

/-- Witness for C2 on the two-water-node instance: the returned one-edge
path is a duplicate-free optimal path; in particular it is no more
expensive than the back-and-forth path `[0, 1, 0, 1]`. -/
theorem C2_bathy_astar_optimal_witness :
    IsPath
      (adjOf BathymetryRouter.EdgeData.weight
        (BathymetryRouter.build_graph Ex.hav8 Ex.c8r
          (BathymetryRouter.generate_water_grid Ex.c8r (1, 0) (3 / 2, 0))
          true))
      (BathymetryRouter.find_nearest_node Ex.hav8 (1, 0)
        (BathymetryRouter.generate_water_grid Ex.c8r (1, 0) (3 / 2, 0)))
      (BathymetryRouter.find_nearest_node Ex.hav8 (3 / 2, 0)
        (BathymetryRouter.generate_water_grid Ex.c8r (1, 0) (3 / 2, 0)))
      [0, 1] ∧
    ([0, 1] : List ℕ).Nodup ∧
    pathCost (fun u v => BathymetryRouter.compute_edge_weight Ex.hav8 Ex.c8r
        ((BathymetryRouter.generate_water_grid Ex.c8r (1, 0) (3 / 2, 0)).getD
          u (0, 0))
        ((BathymetryRouter.generate_water_grid Ex.c8r (1, 0) (3 / 2, 0)).getD
          v (0, 0)) true) [0, 1] ≤
      pathCost (fun u v => BathymetryRouter.compute_edge_weight Ex.hav8 Ex.c8r
        ((BathymetryRouter.generate_water_grid Ex.c8r (1, 0) (3 / 2, 0)).getD
          u (0, 0))
        ((BathymetryRouter.generate_water_grid Ex.c8r (1, 0) (3 / 2, 0)).getD
          v (0, 0)) true) [0, 1, 0, 1] := by
  have h := C2_bathy_astar_optimal Ex.hav8 Ex.c8r (1, 0) (3 / 2, 0) true 50
    [0, 1] hav8_nonneg hav8_symm hav8_triangle Ex.c8astar
  refine ⟨h.1, h.2.1, h.2.2 [0, 1, 0, 1] ?_⟩
  rw [Ex.c8grid, Ex.c8graph]
  have hsi : BathymetryRouter.find_nearest_node Ex.hav8 (1, 0)
      [(0, -5), (2, -5)] = 0 := by with_unfolding_all rfl
  have hei : BathymetryRouter.find_nearest_node Ex.hav8 (3 / 2, 0)
      [(0, -5), (2, -5)] = 1 := by with_unfolding_all rfl
  rw [hsi, hei]
  refine ⟨List.cons_ne_nil _ _, rfl, rfl, ?_⟩
  exact List.Chain.cons (by decide)
    (List.Chain.cons (by decide)
      (List.Chain.cons (by decide) List.Chain.nil))

namespace Ex

/-- The simple-optimizer counterexample: its waypoint list. -/
theorem c2aw : c2all = [(0, 0), (350, 50), (275, 25), (700, 0)] := by
  with_unfolding_all rfl

/-- Its five-edge graph (hazard-free, so every weight is
`0.4633 × distance`, strictly below the distance attribute). -/
theorem c2graph : RouteOpt.create_route_graph l1dist l1dist
    [(0, 0), (350, 50), (275, 25), (700, 0)] [] =
    [(0, 1, ⟨4633 / 25, 400, 72000, 372, 0⟩),
     (0, 2, ⟨13899 / 100, 300, 54000, 279, 0⟩),
     (1, 2, ⟨4633 / 100, 100, 18000, 93, 0⟩),
     (1, 3, ⟨4633 / 25, 400, 72000, 372, 0⟩),
     (2, 3, ⟨41697 / 200, 450, 81000, 837 / 2, 0⟩)] := by
  with_unfolding_all rfl

/-- The same literal for the named graph. -/
theorem c2Glit : c2G =
    [(0, 1, ⟨4633 / 25, 400, 72000, 372, 0⟩),
     (0, 2, ⟨13899 / 100, 300, 54000, 279, 0⟩),
     (1, 2, ⟨4633 / 100, 100, 18000, 93, 0⟩),
     (1, 3, ⟨4633 / 25, 400, 72000, 372, 0⟩),
     (2, 3, ⟨41697 / 200, 450, 81000, 837 / 2, 0⟩)] := by
  with_unfolding_all rfl

/-- The simple optimizer's A* call returns `[0, 1, 3]` here. -/
theorem c2astar : RouteOpt.simple_astar l1dist l1dist (0, 0) (700, 0)
    c2way [] 20 = .ok [0, 1, 3] := by
  norm_num [RouteOpt.simple_astar, RouteOpt.all_wps, c2way, c2graph,
    RouteOpt.simple_heur, NX.astar_path, NX.loop, NX.popMin, NX.findMin,
    NX.entryLt, NX.eraseFirst, NX.relax, adjOf, gNodes, alookup, ainsert,
    NX.reconstruct, NX.reconGo, l1dist, qabs,
    -Prod.mk_zero_zero, -Prod.mk_one_one]

end Ex

/-- **C2 counterexample**: in the simple optimizer's graph over
`[start] + waypoints + [end]` the A* call returns `[0, 1, 3]` (total
weight `370.64`), although `[0, 2, 3]` is a path between the same
endpoints (start index 0, end index 3) of total weight `347.475`: the
returned path's weight is not minimal, refuting the claim for this
constructed graph. -/
theorem C2_counterexample :
    RouteOpt.simple_astar Ex.l1dist Ex.l1dist (0, 0) (700, 0) Ex.c2way []
      20 = .ok [0, 1, 3] ∧
    (RouteOpt.all_wps (0, 0) (700, 0) Ex.c2way).length - 1 = 3 ∧
    IsPath (adjOf RouteOpt.SEdge.weight Ex.c2G) 0 3 [0, 1, 3] ∧
    IsPath (adjOf RouteOpt.SEdge.weight Ex.c2G) 0 3 [0, 2, 3] ∧
    pathCost Ex.c2w [0, 2, 3] < pathCost Ex.c2w [0, 1, 3] := by
  refine ⟨Ex.c2astar, by with_unfolding_all rfl, ?_, ?_, ?_⟩
  · rw [Ex.c2Glit]
    refine ⟨List.cons_ne_nil _ _, rfl, rfl, ?_⟩
    exact List.Chain.cons (by decide)
      (List.Chain.cons (by decide) List.Chain.nil)
  · rw [Ex.c2Glit]
    refine ⟨List.cons_ne_nil _ _, rfl, rfl, ?_⟩
    exact List.Chain.cons (by decide)
      (List.Chain.cons (by decide) List.Chain.nil)
  · with_unfolding_all decide

end AICaptain
